import Mathlib

/-!
Verification development for the LegalTechKZ expertise core
(`legaltechkz/expertise/document_parser.py`, `completeness_validator.py`,
`base_expert.py`).

Text is modelled as `List Char` (`Str`), so that Python string operations
(split, strip, join, regex-style scanning) become structurally recursive
list functions that the kernel can evaluate.  Python `re` matching with
`re.IGNORECASE` is modelled by a case-folding character comparison that
covers ASCII letters and the Cyrillic range actually used by the patterns.
All inputs reaching the matchers are newline-free (the parser splits the
document on newlines first), which the models rely on where noted.
-/

namespace LegalTechKZ

/-- Whitespace characters of Python's `str.strip` / regex `\s` (ASCII part;
the Cyrillic legal texts involved use only these). -/
def isWs (c : Char) : Bool :=
  c = ' ' || c = '\t' || c = '\n' || c = '\r' || c = '\x0b' || c = '\x0c'

/-- Case folding used to model `re.IGNORECASE`: ASCII `A`-`Z` and the
Cyrillic uppercase range `А`-`Я` (U+0410..U+042F) fold by adding 32;
`Ё` (U+0401) folds to `ё` (U+0451). -/
def caseFold (c : Char) : Char :=
  if 'A' ≤ c ∧ c ≤ 'Z' then Char.ofNat (c.toNat + 32)
  else if 'А' ≤ c ∧ c ≤ 'Я' then Char.ofNat (c.toNat + 32)
  else if c = 'Ё' then Char.ofNat 0x0451
  else c

/-- Text, modelled as a list of characters. -/
abbrev Str := List Char

/-- Python `str.strip()`: drop leading and trailing whitespace. -/
def stripChars (s : Str) : Str :=
  ((s.dropWhile isWs).reverse.dropWhile isWs).reverse

/-- Python `sep.join(items)`. -/
def joinSep (sep : Str) : List Str → Str
  | [] => []
  | [x] => x
  | x :: y :: rest => x ++ sep ++ joinSep sep (y :: rest)

/-- Python `document_text.split('\n')`: segments between newline characters,
empty segments included; the empty text yields one empty line. -/
def splitLines : Str → List Str
  | [] => [[]]
  | c :: cs =>
    if c = '\n' then [] :: splitLines cs
    else
      match splitLines cs with
      | l :: ls => (c :: l) :: ls
      | [] => [[c]]

/-! ### Group-response banner extraction (`BaseExpertAgent._extract_fragment_analysis`)

The Python code runs `re.search` with `re.DOTALL | re.IGNORECASE` for

  `===\s*АНАЛИЗ ФРАГМЕНТА:\s*{re.escape(number)}\s*===(.*?)===\s*КОНЕЦ АНАЛИЗА ФРАГМЕНТА`

The model below implements exactly this pattern: leftmost match start,
greedy `\s*` (longest whitespace consumption tried first), non-greedy
capture (shortest capture tried first), case-insensitive literals, and the
escaped `number` matched as a literal. -/

/-- Case-insensitive literal match at the start of `s`: returns the
remainder after the literal, or `none`. -/
def matchLitCI : Str → Str → Option Str
  | [], s => some s
  | _ :: _, [] => none
  | c :: cs, d :: ds => if caseFold c = caseFold d then matchLitCI cs ds else none

/-- All ways `\s*` can split `s` into consumed whitespace and a remainder,
longest consumption first (the backtracking order of a greedy `\s*`). -/
def wsSplits : Str → List Str
  | [] => [[]]
  | c :: cs => if isWs c then wsSplits cs ++ [c :: cs] else [c :: cs]

/-- The literal `===`. -/
def eqMark : Str := "===".toList

/-- The literal inside the start banner. -/
def startMark : Str := "АНАЛИЗ ФРАГМЕНТА:".toList

/-- The literal ending the pattern.  Note: the source pattern stops here —
it does not require the fragment number (nor a closing `===`) after
`КОНЕЦ АНАЛИЗА ФРАГМЕНТА`. -/
def endMark : Str := "КОНЕЦ АНАЛИЗА ФРАГМЕНТА".toList

/-- Does `===\s*КОНЕЦ АНАЛИЗА ФРАГМЕНТА` match at the start of `s`? -/
def matchEndBanner (s : Str) : Bool :=
  match matchLitCI eqMark s with
  | none => false
  | some r => (wsSplits r).any fun r2 => (matchLitCI endMark r2).isSome

/-- Non-greedy `(.*?)` before the end banner: the shortest prefix of `s`
after which the end banner matches. -/
def captureUpToEnd : Str → Option Str
  | [] => none
  | c :: cs =>
    if matchEndBanner (c :: cs) then some []
    else (captureUpToEnd cs).map (c :: ·)

/-- Match the full extraction pattern anchored at the start of `s`;
returns the capture group. -/
def matchAt (number s : Str) : Option Str :=
  match matchLitCI eqMark s with
  | none => none
  | some r1 => (wsSplits r1).findSome? fun r2 =>
    match matchLitCI startMark r2 with
    | none => none
    | some r3 => (wsSplits r3).findSome? fun r4 =>
      match matchLitCI number r4 with
      | none => none
      | some r5 => (wsSplits r5).findSome? fun r6 =>
        match matchLitCI eqMark r6 with
        | none => none
        | some r7 => captureUpToEnd r7

/-- `re.search`: try every start position left to right. -/
def searchPattern (number : Str) : Str → Option Str
  | [] => none
  | c :: cs =>
    match matchAt number (c :: cs) with
    | some g => some g
    | none => searchPattern number cs

/-- `BaseExpertAgent._extract_fragment_analysis(full_response, fragment_number)`:
`re.search` for the banner pattern, then `.strip()` of the capture group;
`None` when the pattern is absent. -/
def extract_fragment_analysis (full_response fragment_number : Str) : Option Str :=
  (searchPattern fragment_number full_response).map stripChars

/-! Specification-side predicate used to characterise when extraction
succeeds (for the analysis of the banner-protocol claim): somewhere in the
response the start banner `===\s*АНАЛИЗ ФРАГМЕНТА:\s*number\s*===` matches,
and the end marker `===\s*КОНЕЦ АНАЛИЗА ФРАГМЕНТА` occurs anywhere in the
remainder.  The fragment number is only constrained in the start banner. -/

/-- Does `===\s*КОНЕЦ АНАЛИЗА ФРАГМЕНТА` match at some position of `s`? -/
def containsEndMarker : Str → Bool
  | [] => false
  | c :: cs => matchEndBanner (c :: cs) || containsEndMarker cs

/-- The start banner for `number` matches at the start of `s`, and the end
marker occurs somewhere after it. -/
def startThenEndAt (number s : Str) : Bool :=
  match matchLitCI eqMark s with
  | none => false
  | some r1 => (wsSplits r1).any fun r2 =>
    match matchLitCI startMark r2 with
    | none => false
    | some r3 => (wsSplits r3).any fun r4 =>
      match matchLitCI number r4 with
      | none => false
      | some r5 => (wsSplits r5).any fun r6 =>
        match matchLitCI eqMark r6 with
        | none => false
        | some r7 => containsEndMarker r7

/-- The start banner for `number` matches at some position, with the end
marker somewhere after it. -/
def hasStartBannerThenEnd (number : Str) : Str → Bool
  | [] => false
  | c :: cs => startThenEndAt number (c :: cs) || hasStartBannerThenEnd number cs

end LegalTechKZ

namespace LegalTechKZ

example : extract_fragment_analysis
    "=== АНАЛИЗ ФРАГМЕНТА: 2 ===  X  === КОНЕЦ АНАЛИЗА ФРАГМЕНТА: 2 ===".toList
    "2".toList = some "X".toList := by decide

example : extract_fragment_analysis
    "=== анализ фрагмента: 2 ===Y=== конец анализа фрагмента".toList
    "2".toList = some "Y".toList := by decide

example : extract_fragment_analysis
    "=== АНАЛИЗ ФРАГМЕНТА: 2 ===X".toList "2".toList = none := by decide

end LegalTechKZ

namespace LegalTechKZ

/-! ### Data model (`document_parser.DocumentFragment`) -/

/-- `DocumentFragment` dataclass from `document_parser.py`. -/
structure DocumentFragment where
  type : Str
  number : Str
  title : Option Str
  text : Str
  full_path : Str
  parent_number : Option Str
  char_start : Nat
  char_end : Nat
deriving DecidableEq, Repr

/-! ### Expert agents (`base_expert.BaseExpertAgent`)

`BaseExpertAgent` is abstract over `get_system_prompt` / `get_analysis_prompt`
(implemented by subclasses) and over the LLM `model.generate`; all three are
fields here.  `generate` takes the prompt, the system message, the
temperature and the `max_tokens` limit, and either returns a response string
or fails (a Python exception is modelled as `Except.error`).  The mutable
`self.analysis_results` accumulator is write-only in the analysis methods
and not consulted by any property under verification, so the methods are
modelled as pure functions returning their result lists. -/

structure ExpertAgent where
  agent_name : Str
  system_prompt : Str
  analysis_prompt : DocumentFragment → Str → Str
  generate : Str → Str → ℚ → Nat → Except Str Str

/-- The per-fragment result dictionary built by `BaseExpertAgent`.
Keys absent from a given Python dict (`error` on success, `group_analysis`
outside the group path) are modelled as `none` / `false`. -/
structure ExpertResult where
  agent : Str
  fragment_type : Str
  fragment_number : Str
  fragment_path : Str
  analysis : Option Str
  error : Option Str
  success : Bool
  group_analysis : Bool
deriving DecidableEq, Repr

/-- `BaseExpertAgent.analyze_fragment`: one `model.generate` call at
temperature 0.1 with `max_tokens=4000`; wraps the response, or the error,
into a result dictionary. -/
def analyze_fragment (ag : ExpertAgent) (fragment : DocumentFragment)
    (checklist : Str) : ExpertResult :=
  match ag.generate (ag.analysis_prompt fragment checklist) ag.system_prompt (1/10) 4000 with
  | Except.ok response =>
    { agent := ag.agent_name
      fragment_type := fragment.type
      fragment_number := fragment.number
      fragment_path := fragment.full_path
      analysis := some response
      error := none
      success := true
      group_analysis := false }
  | Except.error e =>
    { agent := ag.agent_name
      fragment_type := fragment.type
      fragment_number := fragment.number
      fragment_path := fragment.full_path
      analysis := none
      error := some e
      success := false
      group_analysis := false }

/-- Decimal digits of a natural number, for the `{i+1}` interpolation. -/
def natStr (n : Nat) : Str := (toString n).toList

/-- One fragment's block inside the group prompt:
`### ФРАГМЕНТ {i+1}: {frag.number} ({frag.full_path})\n{frag.text}`. -/
def fragmentBlock (i : Nat) (frag : DocumentFragment) : Str :=
  "### ФРАГМЕНТ ".toList ++ natStr (i + 1) ++ ": ".toList ++ frag.number
    ++ " (".toList ++ frag.full_path ++ ")\n".toList ++ frag.text

/-- `fragments_text`: the fragment blocks joined by blank lines. -/
def fragments_text (fragments : List DocumentFragment) : Str :=
  joinSep "\n\n".toList (fragments.enum.map fun p => fragmentBlock p.1 p.2)

/-- The `group_prompt` f-string of `analyze_fragment_group`. -/
def group_prompt (checklist : Str) (fragments : List DocumentFragment) : Str :=
  "**ГРУППОВОЙ АНАЛИЗ:** Проанализируй следующие фрагменты НПА последовательно.\n\n**ОГЛАВЛЕНИЕ-ЧЕКЛИСТ:**\n".toList
  ++ checklist
  ++ "\n\n---\n\n**ФРАГМЕНТЫ ДЛЯ АНАЛИЗА:**\n\n".toList
  ++ fragments_text fragments
  ++ "\n\n---\n\n**ИНСТРУКЦИЯ:**\nПроанализируй КАЖДЫЙ фрагмент по отдельности согласно твоей методологии.\nДля каждого фрагмента предоставь полный анализ с цитированием.\n\n**ФОРМАТ ВЫВОДА:**\nДля каждого фрагмента выведи результат в следующем формате:\n\n```\n=== АНАЛИЗ ФРАГМЕНТА: [номер] ===\n[Полный детальный анализ согласно методологии]\n=== КОНЕЦ АНАЛИЗА ФРАГМЕНТА: [номер] ===\n```\n\nНачинай анализ.".toList

/-- Python `x or y` on an optional string: `y` when `x` is `None` or the
empty string (both falsy), else the string in `x`. -/
def pyOr (x : Option Str) (y : Str) : Str :=
  match x with
  | none => y
  | some t => if t.isEmpty then y else t

/-- The result dictionary built for one fragment of a successful group call:
`'analysis': fragment_analysis or response` — the extracted per-fragment
analysis, or the whole combined response when extraction fails *or strips
to the empty string* (Python truthiness). -/
def groupResult (ag : ExpertAgent) (response : Str) (fragment : DocumentFragment) :
    ExpertResult :=
  { agent := ag.agent_name
    fragment_type := fragment.type
    fragment_number := fragment.number
    fragment_path := fragment.full_path
    analysis := some (pyOr (extract_fragment_analysis response fragment.number) response)
    error := none
    success := true
    group_analysis := true }

/-- `BaseExpertAgent.analyze_fragment_group`: a single-element group goes
through `analyze_fragment`; otherwise one combined `generate` call at
temperature 0.1 with `max_tokens=8000` is demultiplexed per fragment, and
if that call raises, every fragment is sent through `analyze_fragment`. -/
def analyze_fragment_group (ag : ExpertAgent) (fragments : List DocumentFragment)
    (checklist : Str) : List ExpertResult :=
  match fragments with
  | [f] => [analyze_fragment ag f checklist]
  | _ =>
    match ag.generate (group_prompt checklist fragments) ag.system_prompt (1/10) 8000 with
    | Except.ok response => fragments.map (groupResult ag response)
    | Except.error _ => fragments.map fun f => analyze_fragment ag f checklist

/-- The batch decomposition of `analyze_batch`:
`fragments[i:i+batch_size]` for `i = 0, batch_size, 2*batch_size, ...`.
(The Python `range` step must be positive; the claims assume
`batch_size >= 1`, under which this fuel-indexed version agrees.) -/
def chunksAux : Nat → Nat → List DocumentFragment → List (List DocumentFragment)
  | 0, _, _ => []
  | _, _, [] => []
  | fuel + 1, bs, x :: xs =>
    (x :: xs.take (bs - 1)) :: chunksAux fuel bs (xs.drop (bs - 1))

/-- The list of batches of size `bs` (last one possibly shorter). -/
def chunks (bs : Nat) (l : List DocumentFragment) : List (List DocumentFragment) :=
  chunksAux l.length bs l

/-- `BaseExpertAgent.analyze_batch`: the batches are processed (in the
source: concurrently, each by `analyze_fragment_group` via
`_analyze_batch_with_logging`) and the per-batch result lists are
concatenated.  The embedding fixes the sequential batch order; the
claims about this method are order-insensitive. -/
def analyze_batch (ag : ExpertAgent) (fragments : List DocumentFragment)
    (checklist : Str) (batch_size : Nat) : List ExpertResult :=
  ((chunks batch_size fragments).map fun b => analyze_fragment_group ag b checklist).flatten

end LegalTechKZ

namespace LegalTechKZ

/-! ### Structural parser (`document_parser.NPADocumentParser`)

`_match_pattern` tries, per element type, an ordered list of `re.match`
patterns with `re.IGNORECASE` (first match wins; `re.match` anchors at the
start of the line).  The chapter/article patterns are
`KEYWORD\s+(\d+)\s*\.?\s*([^\n]+)?`; the `Ст\.` variant uses `\s*` after the
keyword.  The paragraph patterns are `^(\d+)\s*SEP\s+([^\n]+)` with `SEP`
being `\.` or `\)`.  `\d` is modelled as ASCII digits.  All lines reaching
the matchers come from splitting the document on `'\n'`, so they are
newline-free and `[^\n]+` means a nonempty remainder. -/

/-- ASCII decimal digit (model of `\d`). -/
def isDigit (c : Char) : Bool := '0' ≤ c && c ≤ '9'

/-- The `\s+(\d+)\s*\.?\s*([^\n]+)?` tail of the chapter/article patterns
(`wsRequired = false` gives the `\s*` variant used after `Ст.`).  Greedy
runs followed by literals of a different character class never backtrack,
so maximal-munch scanning is exact here. -/
def headerTail (wsRequired : Bool) (r : Str) : Option (Str × Option Str) :=
  let w := r.takeWhile isWs
  let r1 := r.dropWhile isWs
  if wsRequired && w.isEmpty then none
  else
    let ds := r1.takeWhile isDigit
    let r2 := r1.dropWhile isDigit
    if ds.isEmpty then none
    else
      let r3 := r2.dropWhile isWs
      let r4 := match r3 with
        | '.' :: t => t
        | _ => r3
      let r5 := r4.dropWhile isWs
      some (ds, if r5.isEmpty then none else some (stripChars r5))

/-- One keyword pattern: the keyword (case-insensitive), then the numbered
header tail. -/
def kwHeader (kw : Str) (wsRequired : Bool) (text : Str) : Option (Str × Option Str) :=
  match matchLitCI kw text with
  | none => none
  | some r => headerTail wsRequired r

/-- `_match_pattern(text, 'chapter')`: `Глава`, `ГЛАВА`, `Раздел` patterns
in order. -/
def match_pattern_chapter (text : Str) : Option (Str × Option Str) :=
  match kwHeader "Глава".toList true text with
  | some m => some m
  | none =>
    match kwHeader "ГЛАВА".toList true text with
    | some m => some m
    | none => kwHeader "Раздел".toList true text

/-- `_match_pattern(text, 'article')`: `Статья`, `СТАТЬЯ`, `Ст.` patterns
in order. -/
def match_pattern_article (text : Str) : Option (Str × Option Str) :=
  match kwHeader "Статья".toList true text with
  | some m => some m
  | none =>
    match kwHeader "СТАТЬЯ".toList true text with
    | some m => some m
    | none => kwHeader "Ст.".toList false text

/-- One paragraph pattern `^(\d+)\s*SEP\s+([^\n]+)`: digits, optional
whitespace, the separator, then `\s+` and a nonempty capture.  When the
remainder after the whitespace run is empty, the greedy `\s+` backtracks
one character and `[^\n]+` matches that final whitespace character. -/
def paragraphPat (sep : Char) (text : Str) : Option (Str × Str) :=
  let ds := text.takeWhile isDigit
  let r1 := text.dropWhile isDigit
  if ds.isEmpty then none
  else
    let r2 := r1.dropWhile isWs
    match r2 with
    | [] => none
    | c :: r3 =>
      if c = sep then
        let w := r3.takeWhile isWs
        let rest := r3.dropWhile isWs
        if w.isEmpty then none
        else if rest.isEmpty then
          match w.reverse with
          | c2 :: _ :: _ => some (ds, [c2])
          | _ => none
        else some (ds, rest)
      else none

/-- `_match_pattern(text, 'paragraph')`: the `.`-separated then the
`)`-separated pattern. -/
def match_pattern_paragraph (text : Str) : Option (Str × Option Str) :=
  match paragraphPat '.' text with
  | some (n, g) => some (n, some (stripChars g))
  | none =>
    match paragraphPat ')' text with
    | some (n, g) => some (n, some (stripChars g))
    | none => none

/-- The stopping test of `_collect_article_text`: a line that matches an
article, paragraph or chapter pattern. -/
def isStructuralLine (s : Str) : Bool :=
  (match_pattern_article s).isSome || (match_pattern_paragraph s).isSome
    || (match_pattern_chapter s).isSome

/-- The loop of `_collect_article_text` over the lines after the header:
stop at the first blank line or structural line, collecting the stripped
lines before it. -/
def collectRest : List Str → List Str
  | [] => []
  | l :: ls =>
    let s := stripChars l
    if s.isEmpty then []
    else if isStructuralLine s then []
    else s :: collectRest ls

/-- `_collect_article_text(lines, start_line)`: the stripped header line
followed by the collected continuation lines, joined with spaces. -/
def collect_article_text (line : Str) (rest : List Str) : Str :=
  joinSep " ".toList (stripChars line :: collectRest rest)

/-- The line loop of `NPADocumentParser.parse`, with the scan state
(`current_chapter`, `current_article`, `char_position`) made explicit.
`current_paragraph` is assigned but never read across lines in the source,
so it needs no state.  A chapter match does not clear `current_article`
(mirroring the source).  The paragraph branch fires only when a current
article exists; unmatched lines are skipped. -/
def parseLines : List Str → Option Str → Option Str → Nat → List DocumentFragment
  | [], _, _, _ => []
  | line :: rest, curCh, curArt, pos =>
    let s := stripChars line
    if s.isEmpty then parseLines rest curCh curArt (pos + line.length + 1)
    else
      match match_pattern_chapter s with
      | some (num, title) =>
        { type := "chapter".toList, number := num, title := title, text := s,
          full_path := "Глава ".toList ++ num, parent_number := none,
          char_start := pos, char_end := pos + line.length }
          :: parseLines rest (some num) curArt (pos + line.length + 1)
      | none =>
        match match_pattern_article s with
        | some (num, title) =>
          let atext := collect_article_text line rest
          { type := "article".toList, number := num, title := title, text := atext,
            full_path :=
              match curCh with
              | some c => "Глава ".toList ++ c ++ " -> Статья ".toList ++ num
              | none => "Статья ".toList ++ num,
            parent_number := curCh,
            char_start := pos, char_end := pos + atext.length }
            :: parseLines rest curCh (some num) (pos + line.length + 1)
        | none =>
          match match_pattern_paragraph s with
          | some (pnum, _) =>
            match curArt with
            | some art =>
              { type := "paragraph".toList, number := art ++ ".".toList ++ pnum,
                title := none, text := s,
                full_path :=
                  (match curCh with
                   | some c => "Глава ".toList ++ c ++ " -> ".toList
                   | none => [])
                    ++ "Статья ".toList ++ art ++ " -> Пункт ".toList ++ pnum,
                parent_number := some art,
                char_start := pos, char_end := pos + line.length }
                :: parseLines rest curCh curArt (pos + line.length + 1)
            | none => parseLines rest curCh curArt (pos + line.length + 1)
          | none => parseLines rest curCh curArt (pos + line.length + 1)

/-- `NPADocumentParser.parse`: split on newlines and scan.  (The
`table_of_contents` side index and the log counters are not consulted by
any verified property.) -/
def parse (document_text : Str) : List DocumentFragment :=
  parseLines (splitLines document_text) none none 0

end LegalTechKZ

namespace LegalTechKZ

/-! ### Completeness validator (`completeness_validator.CompletenessValidator`) -/

/-- Python `dict` assignment `d[k] = v`: update in place if the key exists
(keeping its position), else append. -/
def dictInsert (k : Str) (v : Bool) : List (Str × Bool) → List (Str × Bool)
  | [] => [(k, v)]
  | (k', v') :: rest =>
    if k' = k then (k', v) :: rest else (k', v') :: dictInsert k v rest

/-- Python `k in d` / `d.get(k)`: first entry with the given key. -/
def dictGet (d : List (Str × Bool)) (k : Str) : Option Bool :=
  match d with
  | [] => none
  | (k', v') :: rest => if k' = k then some v' else dictGet rest k

/-- The checklist dict comprehension
`{f"article_{a.number}": False for a in articles}`: since every value is
`False`, the resulting dict maps each distinct key, in first-occurrence
order, to `False`. -/
def buildChecklist : List DocumentFragment → List (Str × Bool)
  | [] => []
  | a :: rest =>
    ("article_".toList ++ a.number, false)
      :: (buildChecklist rest).filter fun p => !(p.1 == "article_".toList ++ a.number)

/-- The validator state: the stored fragments, the filtered article list
and the checklist dict.  The `analysis_results` dict is written by
`mark_analyzed` but never read by the verified operations, so it is
omitted. -/
structure CompletenessValidator where
  fragments : List DocumentFragment
  articles : List DocumentFragment
  checklist : List (Str × Bool)

/-- `CompletenessValidator.__init__`. -/
def CompletenessValidator.init (fragments : List DocumentFragment) :
    CompletenessValidator :=
  let articles := fragments.filter fun f => f.type == "article".toList
  { fragments := fragments
    articles := articles
    checklist := buildChecklist articles }

/-- `mark_analyzed(article_number, ...)`: set the entry to `True` when the
key exists, else a warning-only no-op.  The attached analysis data plays no
role in the verified properties. -/
def CompletenessValidator.mark_analyzed (v : CompletenessValidator)
    (article_number : Str) : CompletenessValidator :=
  let fid := "article_".toList ++ article_number
  if (dictGet v.checklist fid).isSome then
    { v with checklist := dictInsert fid true v.checklist }
  else v

/-- `get_missing_articles()`: the article fragments whose checklist entry
is not `True` (`checklist.get(fragment_id, False)`). -/
def CompletenessValidator.get_missing_articles (v : CompletenessValidator) :
    List DocumentFragment :=
  v.articles.filter fun a =>
    !((dictGet v.checklist ("article_".toList ++ a.number)).getD false)

/-- `is_complete()`: `all(self.checklist.values())`. -/
def CompletenessValidator.is_complete (v : CompletenessValidator) : Bool :=
  v.checklist.all fun p => p.2

/-- `get_completion_rate()`: `completed / total` as an exact rational
(Python float division of these machine integers), `1.0` on an empty
checklist. -/
def CompletenessValidator.get_completion_rate (v : CompletenessValidator) : ℚ :=
  if v.checklist.isEmpty then 1
  else ((v.checklist.countP fun p => p.2 : Nat) : ℚ) / (v.checklist.length : ℚ)

/-- The completion report dict.  The two purely textual fields
(`completion_percentage`, `missing_article_details`) are presentation
formatting of the fields below and are omitted. -/
structure CompletionReport where
  total_articles : Nat
  analyzed_articles : Int
  missing_articles : Nat
  completion_rate : ℚ
  is_complete : Bool
  missing_article_numbers : List Str
deriving DecidableEq, Repr

/-- `get_completion_report()`: note `analyzed_articles` is
`len(self.checklist) - len(missing)` in the source (checklist size, not
article count, minus the missing count). -/
def CompletenessValidator.get_completion_report (v : CompletenessValidator) :
    CompletionReport :=
  let missing := v.get_missing_articles
  { total_articles := v.articles.length
    analyzed_articles := (v.checklist.length : Int) - (missing.length : Int)
    missing_articles := missing.length
    completion_rate := v.get_completion_rate
    is_complete := v.is_complete
    missing_article_numbers := missing.map (·.number) }

end LegalTechKZ

namespace LegalTechKZ

example :
    (parse "Глава 1. Общие положения\nСтатья 1. Термины\nтекст статьи\n\nСтатья 2. Цели".toList).map
        (fun f => (f.type, f.number, f.text)) =
      [("chapter".toList, "1".toList, "Глава 1. Общие положения".toList),
       ("article".toList, "1".toList, "Статья 1. Термины текст статьи".toList),
       ("article".toList, "2".toList, "Статья 2. Цели".toList)] := by decide

example :
    (((CompletenessValidator.init (parse "Статья 1. А\nСтатья 2. Б".toList)).mark_analyzed
        "1".toList).get_missing_articles).map (·.number) = ["2".toList] := by decide

end LegalTechKZ

namespace LegalTechKZ

/-! ### Dictionary and checklist lemmas -/

lemma dictGet_dictInsert_self (d : List (Str × Bool)) (k : Str) (v : Bool) :
    dictGet (dictInsert k v d) k = some v := by
  induction d with
  | nil => simp [dictInsert, dictGet]
  | cons p rest ih =>
    obtain ⟨k', v'⟩ := p
    by_cases h : k' = k <;> simp [dictInsert, dictGet, h, ih]

lemma dictGet_dictInsert_ne (d : List (Str × Bool)) {k k₂ : Str} (v : Bool)
    (h : k₂ ≠ k) : dictGet (dictInsert k v d) k₂ = dictGet d k₂ := by
  have h' : ¬ k = k₂ := fun e => h e.symm
  induction d with
  | nil => simp [dictInsert, dictGet, h']
  | cons p rest ih =>
    obtain ⟨k', v'⟩ := p
    by_cases hk : k' = k
    · subst hk
      simp [dictInsert, dictGet, h']
    · simp [dictInsert, dictGet, hk, ih]

lemma length_dictInsert_of_isSome {d : List (Str × Bool)} {k : Str} (v : Bool)
    (h : (dictGet d k).isSome) : (dictInsert k v d).length = d.length := by
  induction d with
  | nil => simp [dictGet] at h
  | cons p rest ih =>
    obtain ⟨k', v'⟩ := p
    by_cases hk : k' = k
    · simp [dictInsert, hk]
    · simp only [dictGet, hk, if_false] at h
      simp [dictInsert, hk, ih h]

lemma countP_snd_le_dictInsert_true (d : List (Str × Bool)) (k : Str) :
    (d.countP fun p => p.2) ≤ ((dictInsert k true d).countP fun p => p.2) := by
  induction d with
  | nil => simp
  | cons p rest ih =>
    obtain ⟨k', v'⟩ := p
    by_cases hk : k' = k
    · subst hk
      simp only [dictInsert, if_pos rfl, List.countP_cons]
      cases v' <;> simp
    · simp only [dictInsert, if_neg hk, List.countP_cons]
      omega

lemma dictGet_isSome_iff_mem_keys (d : List (Str × Bool)) (k : Str) :
    (dictGet d k).isSome ↔ k ∈ d.map (·.1) := by
  induction d with
  | nil => simp [dictGet]
  | cons p rest ih =>
    obtain ⟨k', v'⟩ := p
    by_cases hk : k' = k
    · subst hk; simp [dictGet]
    · have hk2 : ¬ k = k' := fun e => hk e.symm
      simp [dictGet, hk, hk2, ih]

/-- The checklist key of an article fragment. -/
def articleKey (a : DocumentFragment) : Str := "article_".toList ++ a.number

lemma mem_keys_buildChecklist {l : List DocumentFragment} {k : Str} :
    k ∈ (buildChecklist l).map (·.1) ↔ k ∈ l.map articleKey := by
  induction l with
  | nil => simp [buildChecklist]
  | cons a rest ih =>
    constructor
    · intro h
      simp only [buildChecklist, List.map_cons, List.mem_cons] at h
      rcases h with h | h
      · subst h; simp [articleKey]
      · simp only [List.mem_map] at h
        obtain ⟨p, hp, hk⟩ := h
        have hmem : p ∈ buildChecklist rest := List.mem_of_mem_filter hp
        have h1 : p.1 ∈ (buildChecklist rest).map (·.1) := List.mem_map_of_mem _ hmem
        have h2 : k ∈ rest.map articleKey := ih.mp (hk ▸ h1)
        simp [h2]
    · intro h
      by_cases hka : k = "article_".toList ++ a.number
      · subst hka; simp [buildChecklist]
      · simp only [List.map_cons, List.mem_cons, articleKey] at h
        rcases h with h | h
        · exact absurd h hka
        · have h1 : k ∈ (buildChecklist rest).map (·.1) := ih.mpr h
          simp only [List.mem_map] at h1
          obtain ⟨p, hp, hk⟩ := h1
          have hpf : p ∈ (buildChecklist rest).filter
              (fun q => !(q.1 == "article_".toList ++ a.number)) := by
            refine List.mem_filter.mpr ⟨hp, ?_⟩
            have hne : (p.1 == "article_".toList ++ a.number) = false :=
              beq_eq_false_iff_ne.mpr (by rw [hk]; exact hka)
            rw [Bool.not_eq_true', hne]
          simp only [buildChecklist, List.map_cons, List.mem_cons]
          right
          exact List.mem_map.mpr ⟨p, hpf, hk⟩

lemma nodup_keys_buildChecklist (l : List DocumentFragment) :
    ((buildChecklist l).map (·.1)).Nodup := by
  induction l with
  | nil => simp [buildChecklist]
  | cons a rest ih =>
    simp only [buildChecklist, List.map_cons, List.nodup_cons]
    constructor
    · intro hmem
      simp only [List.mem_map] at hmem
      obtain ⟨p, hp, hk⟩ := hmem
      have := List.of_mem_filter hp
      simp [hk] at this
    · exact ((List.filter_sublist _).map _).nodup ih

lemma buildChecklist_length_le (l : List DocumentFragment) :
    (buildChecklist l).length ≤ l.length := by
  induction l with
  | nil => simp [buildChecklist]
  | cons a rest ih =>
    simp only [buildChecklist, List.length_cons]
    have := List.length_filter_le
      (fun q => !(q.1 == "article_".toList ++ a.number)) (buildChecklist rest)
    omega

lemma buildChecklist_length_of_nodup {l : List DocumentFragment}
    (h : (l.map articleKey).Nodup) : (buildChecklist l).length = l.length := by
  induction l with
  | nil => simp [buildChecklist]
  | cons a rest ih =>
    simp only [List.map_cons, List.nodup_cons] at h
    obtain ⟨hnot, hrest⟩ := h
    have hfix : (buildChecklist rest).filter
        (fun q => !(q.1 == "article_".toList ++ a.number)) = buildChecklist rest := by
      refine List.filter_eq_self.mpr fun p hp => ?_
      have h1 : p.1 ∈ (buildChecklist rest).map (·.1) := List.mem_map_of_mem _ hp
      have h2 : p.1 ∈ rest.map articleKey := mem_keys_buildChecklist.mp h1
      have h3 : p.1 ≠ articleKey a := fun e => hnot (e ▸ h2)
      simp only [articleKey] at h3
      have hne : (p.1 == "article_".toList ++ a.number) = false :=
        beq_eq_false_iff_ne.mpr h3
      rw [Bool.not_eq_true', hne]
    simp only [buildChecklist, List.length_cons]
    rw [hfix, ih hrest]

lemma length_filter_lt_of_exists {α : Type} {l : List α} {q : α → Bool}
    (h : ∃ x ∈ l, q x = false) : (l.filter q).length < l.length := by
  induction l with
  | nil => simp at h
  | cons a rest ih =>
    obtain ⟨x, hx, hqx⟩ := h
    rcases List.mem_cons.mp hx with rfl | hx'
    · have h1 := List.length_filter_le q rest
      have h2 : (List.filter q (x :: rest)).length = (List.filter q rest).length := by
        simp [List.filter_cons, hqx]
      simp only [List.length_cons]
      omega
    · by_cases hqa : q a
      · have h1 : (List.filter q (a :: rest)).length = (List.filter q rest).length + 1 := by
          simp [List.filter_cons, hqa]
        have h2 := ih ⟨x, hx', hqx⟩
        simp only [List.length_cons]
        omega
      · have h1 : (List.filter q (a :: rest)).length = (List.filter q rest).length := by
          simp [List.filter_cons, hqa]
        have h2 := ih ⟨x, hx', hqx⟩
        have h3 := List.length_filter_le q rest
        simp only [List.length_cons]
        omega

lemma buildChecklist_length_lt {l : List DocumentFragment}
    (h : ¬ (l.map articleKey).Nodup) : (buildChecklist l).length < l.length := by
  induction l with
  | nil => simp at h
  | cons a rest ih =>
    simp only [List.map_cons, List.nodup_cons] at h
    by_cases hmem : articleKey a ∈ rest.map articleKey
    · have hx : ∃ p ∈ buildChecklist rest,
          (fun q => !(q.1 == "article_".toList ++ a.number)) p = false := by
        have h1 : articleKey a ∈ (buildChecklist rest).map (·.1) :=
          mem_keys_buildChecklist.mpr hmem
        simp only [List.mem_map] at h1
        obtain ⟨p, hp, hk⟩ := h1
        refine ⟨p, hp, ?_⟩
        simp [hk, articleKey]
      have hlt := length_filter_lt_of_exists hx
      have hle := buildChecklist_length_le rest
      simp only [buildChecklist, List.length_cons]
      omega
    · have hrest : ¬ (rest.map articleKey).Nodup := fun hn => h ⟨hmem, hn⟩
      have hlt := ih hrest
      have := List.length_filter_le
        (fun q => !(q.1 == "article_".toList ++ a.number)) (buildChecklist rest)
      simp only [buildChecklist, List.length_cons]
      omega

end LegalTechKZ

namespace LegalTechKZ

/-! ### `mark_analyzed` step lemmas -/

lemma mark_analyzed_articles (v : CompletenessValidator) (n : Str) :
    (v.mark_analyzed n).articles = v.articles := by
  simp only [CompletenessValidator.mark_analyzed]
  split <;> rfl

lemma mark_analyzed_checklist_length (v : CompletenessValidator) (n : Str) :
    (v.mark_analyzed n).checklist.length = v.checklist.length := by
  simp only [CompletenessValidator.mark_analyzed]
  split
  · exact length_dictInsert_of_isSome true (by assumption)
  · rfl

lemma dictGet_mark_analyzed_true {v : CompletenessValidator} (n : Str) {k : Str}
    (h : dictGet v.checklist k = some true) :
    dictGet (v.mark_analyzed n).checklist k = some true := by
  simp only [CompletenessValidator.mark_analyzed]
  split
  · by_cases hk : k = "article_".toList ++ n
    · subst hk
      exact dictGet_dictInsert_self v.checklist _ true
    · rw [dictGet_dictInsert_ne v.checklist true hk]
      exact h
  · exact h

lemma rate_le_mark_analyzed (v : CompletenessValidator) (n : Str) :
    v.get_completion_rate ≤ (v.mark_analyzed n).get_completion_rate := by
  by_cases hin : (dictGet v.checklist ("article_".toList ++ n)).isSome
  · have hmark : (v.mark_analyzed n).checklist
        = dictInsert ("article_".toList ++ n) true v.checklist := by
      simp only [CompletenessValidator.mark_analyzed]
      rw [if_pos hin]
    by_cases hemp : v.checklist.isEmpty
    · rw [List.isEmpty_iff] at hemp
      rw [hemp] at hin
      simp [dictGet] at hin
    · have hlen : (v.mark_analyzed n).checklist.length = v.checklist.length :=
        mark_analyzed_checklist_length v n
      have hemp' : (v.mark_analyzed n).checklist.isEmpty = false := by
        rcases h2 : (v.mark_analyzed n).checklist with _ | _
        · rw [h2] at hlen
          rcases h3 : v.checklist with _ | _
          · rw [h3] at hemp; simp at hemp
          · rw [h3] at hlen; simp at hlen
        · rfl
      unfold CompletenessValidator.get_completion_rate
      rw [hemp', hlen]
      simp only [hemp, Bool.false_eq_true, if_false]
      have hpos : (0 : ℚ) < (v.checklist.length : ℚ) := by
        have h0 : v.checklist ≠ [] := by
          intro e; rw [e] at hemp; simp at hemp
        have h1 : 0 < v.checklist.length := List.length_pos.mpr h0
        exact_mod_cast h1
      rw [div_le_div_iff_of_pos_right hpos]
      have hc : (v.checklist.countP fun p => p.2)
          ≤ ((v.mark_analyzed n).checklist.countP fun p => p.2) := by
        rw [hmark]
        exact countP_snd_le_dictInsert_true v.checklist _
      exact_mod_cast hc
  · have hmark : v.mark_analyzed n = v := by
      simp only [CompletenessValidator.mark_analyzed]
      rw [if_neg hin]
    rw [hmark]

lemma missing_mark_analyzed_subset (v : CompletenessValidator) (n : Str)
    (x : DocumentFragment) (hx : x ∈ (v.mark_analyzed n).get_missing_articles) :
    x ∈ v.get_missing_articles := by
  unfold CompletenessValidator.get_missing_articles at hx ⊢
  rw [mark_analyzed_articles] at hx
  obtain ⟨hxa, hxp⟩ := List.mem_filter.mp hx
  refine List.mem_filter.mpr ⟨hxa, ?_⟩
  by_cases hin : (dictGet v.checklist ("article_".toList ++ n)).isSome
  · have hmark : (v.mark_analyzed n).checklist
        = dictInsert ("article_".toList ++ n) true v.checklist := by
      simp only [CompletenessValidator.mark_analyzed]
      rw [if_pos hin]
    rw [hmark] at hxp
    by_cases hk : "article_".toList ++ x.number = "article_".toList ++ n
    · rw [hk, dictGet_dictInsert_self] at hxp
      simp at hxp
    · rw [dictGet_dictInsert_ne v.checklist true hk] at hxp
      exact hxp
  · have hmark : v.mark_analyzed n = v := by
      simp only [CompletenessValidator.mark_analyzed]
      rw [if_neg hin]
    rw [hmark] at hxp
    exact hxp

lemma foldl_mark_analyzed_articles (ns : List Str) (v : CompletenessValidator) :
    (ns.foldl CompletenessValidator.mark_analyzed v).articles = v.articles := by
  induction ns generalizing v with
  | nil => rfl
  | cons n ns ih =>
    rw [List.foldl_cons, ih, mark_analyzed_articles]

lemma foldl_mark_analyzed_checklist_length (ns : List Str) (v : CompletenessValidator) :
    (ns.foldl CompletenessValidator.mark_analyzed v).checklist.length
      = v.checklist.length := by
  induction ns generalizing v with
  | nil => rfl
  | cons n ns ih =>
    rw [List.foldl_cons, ih, mark_analyzed_checklist_length]

end LegalTechKZ

namespace LegalTechKZ

/-- A synthetic article fragment used in concrete witnesses. -/
def mkArticleTxt (n txt : Str) : DocumentFragment :=
  { type := "article".toList, number := n, title := none, text := txt,
    full_path := txt, parent_number := none, char_start := 0, char_end := 0 }

/-- A synthetic chapter fragment used in concrete witnesses. -/
def mkChapter (n : Str) : DocumentFragment :=
  { type := "chapter".toList, number := n, title := none, text := n,
    full_path := n, parent_number := none, char_start := 0, char_end := 0 }

/-- Claim C3: for every `CompletenessValidator` and every sequence of
`mark_analyzed` calls (duplicates and unknown numbers included), the
completion rate is non-decreasing, `get_missing_articles()` only shrinks,
and a checklist entry that is `true` stays `true`. -/
theorem claim_C3_checklist_monotone (v : CompletenessValidator) (ns : List Str) :
    v.get_completion_rate
        ≤ (ns.foldl CompletenessValidator.mark_analyzed v).get_completion_rate ∧
    (∀ x, x ∈ (ns.foldl CompletenessValidator.mark_analyzed v).get_missing_articles →
      x ∈ v.get_missing_articles) ∧
    (∀ k, dictGet v.checklist k = some true →
      dictGet (ns.foldl CompletenessValidator.mark_analyzed v).checklist k = some true) := by
  induction ns generalizing v with
  | nil => exact ⟨le_refl _, fun x h => h, fun k h => h⟩
  | cons n ns ih =>
    obtain ⟨h1, h2, h3⟩ := ih (v.mark_analyzed n)
    rw [List.foldl_cons]
    exact ⟨le_trans (rate_le_mark_analyzed v n) h1,
      fun x hx => missing_mark_analyzed_subset v n x (h2 x hx),
      fun k hk => h3 k (dictGet_mark_analyzed_true n hk)⟩

/-- Concrete instance of claim C3: two articles, with a duplicate and an
unknown number marked along the way. -/
theorem claim_C3_witness :
    (CompletenessValidator.init [mkArticleTxt "1".toList "a".toList,
        mkArticleTxt "2".toList "b".toList]).get_completion_rate
        ≤ ((["1".toList, "99".toList, "1".toList].foldl CompletenessValidator.mark_analyzed
            (CompletenessValidator.init [mkArticleTxt "1".toList "a".toList,
              mkArticleTxt "2".toList "b".toList]))).get_completion_rate ∧
    (∀ x, x ∈ ((["1".toList, "99".toList, "1".toList].foldl CompletenessValidator.mark_analyzed
            (CompletenessValidator.init [mkArticleTxt "1".toList "a".toList,
              mkArticleTxt "2".toList "b".toList]))).get_missing_articles →
      x ∈ (CompletenessValidator.init [mkArticleTxt "1".toList "a".toList,
        mkArticleTxt "2".toList "b".toList]).get_missing_articles) ∧
    (∀ k, dictGet (CompletenessValidator.init [mkArticleTxt "1".toList "a".toList,
        mkArticleTxt "2".toList "b".toList]).checklist k = some true →
      dictGet ((["1".toList, "99".toList, "1".toList].foldl CompletenessValidator.mark_analyzed
            (CompletenessValidator.init [mkArticleTxt "1".toList "a".toList,
              mkArticleTxt "2".toList "b".toList]))).checklist k = some true) :=
  claim_C3_checklist_monotone _ _

/-- Claim C9: with no article fragments at all, the validator reports
vacuous completeness: rate 1.0, `is_complete` true, and a report with
`is_complete = true` over zero articles. -/
theorem claim_C9_vacuous_completeness (fragments : List DocumentFragment)
    (h : ∀ f ∈ fragments, ¬ f.type = "article".toList) :
    (CompletenessValidator.init fragments).get_completion_rate = 1 ∧
    (CompletenessValidator.init fragments).is_complete = true ∧
    ((CompletenessValidator.init fragments).get_completion_report).is_complete = true ∧
    ((CompletenessValidator.init fragments).get_completion_report).total_articles = 0 := by
  have hart : fragments.filter (fun f => f.type == "article".toList) = [] := by
    refine List.filter_eq_nil_iff.mpr fun f hf => ?_
    simpa using h f hf
  have hinit : CompletenessValidator.init fragments
      = { fragments := fragments, articles := [], checklist := [] } := by
    simp only [CompletenessValidator.init, hart]
    rfl
  rw [hinit]
  refine ⟨?_, rfl, rfl, rfl⟩
  simp [CompletenessValidator.get_completion_rate]

/-- Concrete instance of claim C9: a document with a single chapter and no
articles. -/
theorem claim_C9_witness :
    (∀ f ∈ [mkChapter "1".toList], ¬ f.type = "article".toList) ∧
    ((CompletenessValidator.init [mkChapter "1".toList]).get_completion_rate = 1 ∧
     (CompletenessValidator.init [mkChapter "1".toList]).is_complete = true ∧
     ((CompletenessValidator.init [mkChapter "1".toList]).get_completion_report).is_complete
        = true ∧
     ((CompletenessValidator.init [mkChapter "1".toList]).get_completion_report).total_articles
        = 0) :=
  ⟨by decide, claim_C9_vacuous_completeness _ (by decide)⟩

/-- Claim C4 as frozen is false on the code: with two distinct article
fragments sharing the number `5`, the checklist holds a single entry, so the
report has `analyzed_articles = 1 - 2 = -1`, `missing_articles = 2`,
`total_articles = 2`, and `-1 + 2 ≠ 2`. -/
theorem claim_C4_counterexample :
    ¬ (((CompletenessValidator.init [mkArticleTxt "5".toList "a".toList,
          mkArticleTxt "5".toList "b".toList]).get_completion_report).analyzed_articles
        + (((CompletenessValidator.init [mkArticleTxt "5".toList "a".toList,
            mkArticleTxt "5".toList "b".toList]).get_completion_report).missing_articles : Int)
        = (((CompletenessValidator.init [mkArticleTxt "5".toList "a".toList,
            mkArticleTxt "5".toList "b".toList]).get_completion_report).total_articles : Int)) := by
  decide

/-- Claim C4, amended: provided the article fragments carry pairwise
distinct numbers, after any sequence of `mark_analyzed` calls the report
satisfies `analyzed_articles + missing_articles = total_articles`. -/
theorem claim_C4_ledger_identity (fragments : List DocumentFragment) (ns : List Str)
    (h : ((fragments.filter fun f => f.type == "article".toList).map (·.number)).Nodup) :
    ((ns.foldl CompletenessValidator.mark_analyzed
        (CompletenessValidator.init fragments)).get_completion_report).analyzed_articles
      + (((ns.foldl CompletenessValidator.mark_analyzed
          (CompletenessValidator.init fragments)).get_completion_report).missing_articles : Int)
      = (((ns.foldl CompletenessValidator.mark_analyzed
          (CompletenessValidator.init fragments)).get_completion_report).total_articles : Int) := by
  set v := ns.foldl CompletenessValidator.mark_analyzed (CompletenessValidator.init fragments)
    with hv
  have hkeys : ((fragments.filter fun f => f.type == "article".toList).map articleKey).Nodup := by
    have hmm : (fragments.filter fun f => f.type == "article".toList).map articleKey
        = ((fragments.filter fun f => f.type == "article".toList).map (·.number)).map
            (fun s => "article_".toList ++ s) := by
      rw [List.map_map]
      rfl
    rw [hmm]
    exact h.map fun s₁ s₂ e => List.append_cancel_left e
  have harts : v.articles = fragments.filter fun f => f.type == "article".toList := by
    rw [hv, foldl_mark_analyzed_articles]
    rfl
  have hlen : v.checklist.length
      = (fragments.filter fun f => f.type == "article".toList).length := by
    rw [hv, foldl_mark_analyzed_checklist_length]
    exact buildChecklist_length_of_nodup hkeys
  simp only [CompletenessValidator.get_completion_report]
  rw [sub_add_cancel, hlen, harts]

/-- Concrete instance of the amended claim C4: three distinct articles,
one marked twice and one unknown number marked. -/
theorem claim_C4_witness :
    ((([mkArticleTxt "1".toList "a".toList, mkArticleTxt "2".toList "b".toList,
        mkArticleTxt "3".toList "c".toList].filter
          fun f => f.type == "article".toList).map (·.number)).Nodup) ∧
    ((["2".toList, "2".toList, "7".toList].foldl CompletenessValidator.mark_analyzed
        (CompletenessValidator.init [mkArticleTxt "1".toList "a".toList,
          mkArticleTxt "2".toList "b".toList,
          mkArticleTxt "3".toList "c".toList])).get_completion_report).analyzed_articles
      + ((((["2".toList, "2".toList, "7".toList].foldl CompletenessValidator.mark_analyzed
          (CompletenessValidator.init [mkArticleTxt "1".toList "a".toList,
            mkArticleTxt "2".toList "b".toList,
            mkArticleTxt "3".toList "c".toList])).get_completion_report)).missing_articles : Int)
      = ((((["2".toList, "2".toList, "7".toList].foldl CompletenessValidator.mark_analyzed
          (CompletenessValidator.init [mkArticleTxt "1".toList "a".toList,
            mkArticleTxt "2".toList "b".toList,
            mkArticleTxt "3".toList "c".toList])).get_completion_report)).total_articles : Int) :=
  ⟨by decide, claim_C4_ledger_identity _ _ (by decide)⟩

end LegalTechKZ

namespace LegalTechKZ

lemma countP_beq_eq_one_of_nodup_mem {l : List Str} {k : Str} (hn : l.Nodup)
    (hm : k ∈ l) : l.countP (fun x => x == k) = 1 := by
  induction l with
  | nil => simp at hm
  | cons a rest ih =>
    rw [List.nodup_cons] at hn
    rcases List.mem_cons.mp hm with rfl | hmem
    · have h0 : rest.countP (fun x => x == k) = 0 := by
        rw [List.countP_eq_zero]
        intro x hx
        simp only [beq_iff_eq]
        intro e
        exact hn.1 (e ▸ hx)
      simp [List.countP_cons, h0]
    · have h1 := ih hn.2 hmem
      have ha2 : ((a == k) : Bool) = false :=
        beq_eq_false_iff_ne.mpr (fun e => hn.1 (e ▸ hmem))
      simp [List.countP_cons, h1, ha2]

/-- Claim C10: when two distinct article fragments share the same number,
the checklist is strictly smaller than the article list, holds exactly one
entry for that number, and a single `mark_analyzed` call on that number
removes every article bearing it from `get_missing_articles()`. -/
theorem claim_C10_duplicate_article_numbers (fragments : List DocumentFragment)
    (a b : DocumentFragment) (ha : a ∈ fragments) (hb : b ∈ fragments) (hab : a ≠ b)
    (hta : a.type = "article".toList) (htb : b.type = "article".toList)
    (hnum : b.number = a.number) :
    (CompletenessValidator.init fragments).checklist.length
        < (CompletenessValidator.init fragments).articles.length ∧
    ((CompletenessValidator.init fragments).checklist.countP
        (fun p => p.1 == "article_".toList ++ a.number)) = 1 ∧
    ∀ x ∈ ((CompletenessValidator.init fragments).mark_analyzed a.number).get_missing_articles,
      x.number ≠ a.number := by
  have hinit : CompletenessValidator.init fragments
      = { fragments := fragments,
          articles := fragments.filter fun f => f.type == "article".toList,
          checklist := buildChecklist
            (fragments.filter fun f => f.type == "article".toList) } := rfl
  set A := fragments.filter fun f => f.type == "article".toList with hA
  have ha' : a ∈ A := List.mem_filter.mpr ⟨ha, by simp [hta]⟩
  have hb' : b ∈ A := List.mem_filter.mpr ⟨hb, by simp [htb]⟩
  have hndk : ¬ (A.map articleKey).Nodup := by
    intro hn
    exact hab (List.inj_on_of_nodup_map hn ha' hb' (by simp [articleKey, hnum]))
  have hmemA : articleKey a ∈ A.map articleKey := List.mem_map_of_mem _ ha'
  refine ⟨?_, ?_, ?_⟩
  · rw [hinit]
    exact buildChecklist_length_lt hndk
  · rw [hinit]
    have hcp : (buildChecklist A).countP (fun p => p.1 == "article_".toList ++ a.number)
        = ((buildChecklist A).map (·.1)).countP
            (fun k => k == "article_".toList ++ a.number) := by
      rw [List.countP_map]
      rfl
    rw [hcp]
    exact countP_beq_eq_one_of_nodup_mem (nodup_keys_buildChecklist A)
      (mem_keys_buildChecklist.mpr hmemA)
  · intro x hx hxn
    have hsome : (dictGet (CompletenessValidator.init fragments).checklist
        ("article_".toList ++ a.number)).isSome := by
      rw [hinit]
      exact (dictGet_isSome_iff_mem_keys _ _).mpr (mem_keys_buildChecklist.mpr hmemA)
    have hmark : ((CompletenessValidator.init fragments).mark_analyzed a.number).checklist
        = dictInsert ("article_".toList ++ a.number) true
            (CompletenessValidator.init fragments).checklist := by
      simp only [CompletenessValidator.mark_analyzed]
      rw [if_pos hsome]
    obtain ⟨hxa, hxp⟩ := List.mem_filter.mp hx
    rw [hmark] at hxp
    rw [hxn, dictGet_dictInsert_self] at hxp
    simp at hxp

/-- Concrete instance of claim C10: two distinct fragments numbered 5. -/
theorem claim_C10_witness :
    ((CompletenessValidator.init [mkArticleTxt "5".toList "a".toList,
        mkArticleTxt "5".toList "b".toList]).checklist.length
      < (CompletenessValidator.init [mkArticleTxt "5".toList "a".toList,
        mkArticleTxt "5".toList "b".toList]).articles.length) ∧
    ((CompletenessValidator.init [mkArticleTxt "5".toList "a".toList,
        mkArticleTxt "5".toList "b".toList]).checklist.countP
        (fun p => p.1 == "article_".toList ++ (mkArticleTxt "5".toList "a".toList).number)) = 1 ∧
    ∀ x ∈ ((CompletenessValidator.init [mkArticleTxt "5".toList "a".toList,
          mkArticleTxt "5".toList "b".toList]).mark_analyzed
        (mkArticleTxt "5".toList "a".toList).number).get_missing_articles,
      x.number ≠ (mkArticleTxt "5".toList "a".toList).number :=
  claim_C10_duplicate_article_numbers
    [mkArticleTxt "5".toList "a".toList, mkArticleTxt "5".toList "b".toList]
    (mkArticleTxt "5".toList "a".toList) (mkArticleTxt "5".toList "b".toList)
    (by decide) (by decide) (by decide) (by decide) (by decide) (by decide)

end LegalTechKZ

namespace LegalTechKZ

/-! ### Batch analysis claims -/

/-- Claim C1: if the combined group call raises, `analyze_fragment_group`
falls back to one `analyze_fragment` call per fragment, in batch order
(for a single-fragment batch the single-fragment path is taken directly,
so the conclusion holds for every non-empty batch). -/
theorem claim_C1_group_failure_fallback (ag : ExpertAgent)
    (fragments : List DocumentFragment) (checklist : Str) (e : Str)
    (hne : fragments ≠ [])
    (herr : ag.generate (group_prompt checklist fragments) ag.system_prompt (1/10) 8000
      = Except.error e) :
    analyze_fragment_group ag fragments checklist
      = fragments.map fun f => analyze_fragment ag f checklist := by
  match fragments with
  | [] => exact absurd rfl hne
  | [f] => rfl
  | f :: g :: rest =>
    simp only [analyze_fragment_group]
    rw [herr]

/-- An agent stub whose model call always raises. -/
def stubAgentErr : ExpertAgent :=
  { agent_name := "agent".toList
    system_prompt := "sys".toList
    analysis_prompt := fun f _ => f.number
    generate := fun _ _ _ _ => Except.error "boom".toList }

/-- Concrete instance of claim C1: a two-fragment batch with a failing
combined call falls back to the two single-fragment results. -/
theorem claim_C1_witness :
    ([mkArticleTxt "1".toList "a".toList, mkArticleTxt "2".toList "b".toList]
        ≠ ([] : List DocumentFragment)) ∧
    stubAgentErr.generate
        (group_prompt "ck".toList
          [mkArticleTxt "1".toList "a".toList, mkArticleTxt "2".toList "b".toList])
        stubAgentErr.system_prompt (1/10) 8000 = Except.error "boom".toList ∧
    analyze_fragment_group stubAgentErr
        [mkArticleTxt "1".toList "a".toList, mkArticleTxt "2".toList "b".toList] "ck".toList
      = [mkArticleTxt "1".toList "a".toList, mkArticleTxt "2".toList "b".toList].map
          fun f => analyze_fragment stubAgentErr f "ck".toList :=
  ⟨by decide, rfl,
    claim_C1_group_failure_fallback stubAgentErr
      [mkArticleTxt "1".toList "a".toList, mkArticleTxt "2".toList "b".toList]
      "ck".toList "boom".toList (by decide) rfl⟩

/-- A grouped response whose banner pair for fragment 1 encloses nothing:
the capture group strips to the empty string. -/
def emptyCaptureResponse : Str :=
  "=== АНАЛИЗ ФРАГМЕНТА: 1 ====== КОНЕЦ АНАЛИЗА ФРАГМЕНТА".toList

/-- An agent stub whose model call always returns `emptyCaptureResponse`. -/
def stubAgentEmpty : ExpertAgent :=
  { agent_name := "agent".toList
    system_prompt := "sys".toList
    analysis_prompt := fun f _ => f.number
    generate := fun _ _ _ _ => Except.ok emptyCaptureResponse }

/-- Claim C5 as frozen is false on the code: `'analysis': fragment_analysis
or response` uses Python truthiness, so an extraction that *succeeds* with
text that strips to the empty string is also replaced by the entire
combined response.  Here extraction for fragment 1 succeeds (it returns the
empty string, not `None`), yet the stored analysis is the whole response
rather than the extracted text. -/
theorem claim_C5_counterexample :
    extract_fragment_analysis emptyCaptureResponse "1".toList = some "".toList ∧
    (analyze_fragment_group stubAgentEmpty
        [mkArticleTxt "1".toList "a".toList, mkArticleTxt "2".toList "b".toList]
        "ck".toList).map (·.analysis)
      = [some emptyCaptureResponse, some emptyCaptureResponse] ∧
    emptyCaptureResponse ≠ "".toList := by
  decide

/-- Claim C5, amended: when the combined call of a batch of two or more
fragments returns a response, every fragment gets a result whose `analysis`
is the banner-extracted text when extraction succeeds with a non-empty
text, and the entire combined response when extraction fails or strips to
the empty string; in all cases `success = true` and `group_analysis = true`. -/
theorem claim_C5_group_success_demux (ag : ExpertAgent)
    (fragments : List DocumentFragment) (checklist : Str) (response : Str)
    (hlen : 2 ≤ fragments.length)
    (hok : ag.generate (group_prompt checklist fragments) ag.system_prompt (1/10) 8000
      = Except.ok response) :
    analyze_fragment_group ag fragments checklist
      = fragments.map fun f =>
          { agent := ag.agent_name
            fragment_type := f.type
            fragment_number := f.number
            fragment_path := f.full_path
            analysis := some (pyOr (extract_fragment_analysis response f.number) response)
            error := none
            success := true
            group_analysis := true } := by
  match fragments with
  | [] => simp at hlen
  | [f] => simp at hlen
  | f :: g :: rest =>
    simp only [analyze_fragment_group]
    rw [hok]
    rfl

/-- A grouped response with a valid banner pair for fragment 1 only. -/
def demoResponse : Str :=
  "=== АНАЛИЗ ФРАГМЕНТА: 1 ===Анализ один=== КОНЕЦ АНАЛИЗА ФРАГМЕНТА: 1 ===\nпрочее".toList

/-- An agent stub whose model call always returns `demoResponse`. -/
def stubAgentOk : ExpertAgent :=
  { agent_name := "agent".toList
    system_prompt := "sys".toList
    analysis_prompt := fun f _ => f.number
    generate := fun _ _ _ _ => Except.ok demoResponse }

/-- Concrete instance of the amended claim C5: fragment 1 gets its
extracted analysis, fragment 2 (whose banner is absent) gets the whole
combined response, both marked successful group results. -/
theorem claim_C5_witness :
    (2 ≤ ([mkArticleTxt "1".toList "a".toList,
        mkArticleTxt "2".toList "b".toList] : List DocumentFragment).length) ∧
    (analyze_fragment_group stubAgentOk
        [mkArticleTxt "1".toList "a".toList, mkArticleTxt "2".toList "b".toList] "ck".toList
      = [mkArticleTxt "1".toList "a".toList, mkArticleTxt "2".toList "b".toList].map
          fun f =>
            { agent := stubAgentOk.agent_name
              fragment_type := f.type
              fragment_number := f.number
              fragment_path := f.full_path
              analysis := some (pyOr (extract_fragment_analysis demoResponse f.number)
                demoResponse)
              error := none
              success := true
              group_analysis := true }) ∧
    (analyze_fragment_group stubAgentOk
        [mkArticleTxt "1".toList "a".toList, mkArticleTxt "2".toList "b".toList]
        "ck".toList).map (·.analysis)
      = [some "Анализ один".toList, some demoResponse] :=
  ⟨by decide,
    claim_C5_group_success_demux stubAgentOk
      [mkArticleTxt "1".toList "a".toList, mkArticleTxt "2".toList "b".toList]
      "ck".toList demoResponse (by decide) rfl,
    by decide⟩

lemma fragment_number_analyze_fragment (ag : ExpertAgent) (f : DocumentFragment)
    (ck : Str) : (analyze_fragment ag f ck).fragment_number = f.number := by
  unfold analyze_fragment
  split <;> rfl

lemma numbers_analyze_fragment_group (ag : ExpertAgent)
    (fs : List DocumentFragment) (ck : Str) :
    (analyze_fragment_group ag fs ck).map (·.fragment_number) = fs.map (·.number) := by
  match fs with
  | [] =>
    simp only [analyze_fragment_group]
    split <;> simp
  | [f] =>
    simp [analyze_fragment_group, fragment_number_analyze_fragment]
  | f :: g :: rest =>
    simp only [analyze_fragment_group]
    split
    · simp [List.map_map, groupResult, Function.comp]
    · simp [List.map_map, Function.comp, fragment_number_analyze_fragment]

lemma chunksAux_flatten (bs : Nat) :
    ∀ (fuel : Nat) (l : List DocumentFragment), l.length ≤ fuel →
      (chunksAux fuel bs l).flatten = l := by
  intro fuel
  induction fuel with
  | zero =>
    intro l hl
    rw [Nat.le_zero] at hl
    rw [List.length_eq_zero] at hl
    subst hl
    rfl
  | succ n ih =>
    intro l hl
    match l with
    | [] => rfl
    | x :: xs =>
      simp only [chunksAux, List.flatten_cons]
      have hdrop : (xs.drop (bs - 1)).length ≤ n := by
        have h1 := List.length_drop (bs - 1) xs
        simp only [List.length_cons] at hl
        omega
      rw [ih _ hdrop]
      simp [List.take_append_drop]

lemma chunks_flatten {bs : Nat} (_hbs : 1 ≤ bs) (l : List DocumentFragment) :
    (chunks bs l).flatten = l :=
  chunksAux_flatten bs l.length l le_rfl

/-- Claim C2: for every fragment list, every batch size at least 1 and
every analyzer behaviour, `analyze_batch` yields exactly one result per
input fragment — the multiset of result fragment numbers is a permutation
of the input numbers, and the lengths agree. -/
theorem claim_C2_one_result_per_fragment (ag : ExpertAgent)
    (fragments : List DocumentFragment) (checklist : Str) (bs : Nat)
    (hbs : 1 ≤ bs) :
    ((analyze_batch ag fragments checklist bs).map (·.fragment_number)).Perm
        (fragments.map (·.number)) ∧
    (analyze_batch ag fragments checklist bs).length = fragments.length := by
  have hmap : (analyze_batch ag fragments checklist bs).map (·.fragment_number)
      = fragments.map (·.number) := by
    unfold analyze_batch
    rw [List.map_flatten, List.map_map]
    have hcomp : (List.map fun r => r.fragment_number)
          ∘ (fun b => analyze_fragment_group ag b checklist)
        = fun b => b.map (·.number) := by
      funext b
      exact numbers_analyze_fragment_group ag b checklist
    rw [hcomp, ← List.map_flatten, chunks_flatten hbs]
  refine ⟨by rw [hmap], ?_⟩
  have hlen := congrArg List.length hmap
  simpa using hlen

/-- Concrete instance of claim C2: three fragments, batch size 2,
a failing analyzer — one result per fragment nevertheless. -/
theorem claim_C2_witness :
    1 ≤ 2 ∧
    (((analyze_batch stubAgentErr
        [mkArticleTxt "1".toList "a".toList, mkArticleTxt "2".toList "b".toList,
          mkArticleTxt "3".toList "c".toList] "ck".toList 2).map (·.fragment_number)).Perm
      ([mkArticleTxt "1".toList "a".toList, mkArticleTxt "2".toList "b".toList,
        mkArticleTxt "3".toList "c".toList].map (·.number)) ∧
    (analyze_batch stubAgentErr
        [mkArticleTxt "1".toList "a".toList, mkArticleTxt "2".toList "b".toList,
          mkArticleTxt "3".toList "c".toList] "ck".toList 2).length
      = [mkArticleTxt "1".toList "a".toList, mkArticleTxt "2".toList "b".toList,
          mkArticleTxt "3".toList "c".toList].length) :=
  ⟨by decide,
    claim_C2_one_result_per_fragment stubAgentErr
      [mkArticleTxt "1".toList "a".toList, mkArticleTxt "2".toList "b".toList,
        mkArticleTxt "3".toList "c".toList] "ck".toList 2 (by decide)⟩

end LegalTechKZ

namespace LegalTechKZ

/-! ### Banner-extraction claims -/

lemma findSome?_isSome_any {α β : Type} (f : α → Option β) (l : List α) :
    (l.findSome? f).isSome = l.any fun a => (f a).isSome := by
  induction l with
  | nil => rfl
  | cons a rest ih =>
    cases h : f a <;> simp [List.findSome?_cons, h, ih]

lemma captureUpToEnd_isSome (s : Str) :
    (captureUpToEnd s).isSome = containsEndMarker s := by
  induction s with
  | nil => rfl
  | cons c cs ih =>
    simp only [captureUpToEnd, containsEndMarker]
    by_cases h : matchEndBanner (c :: cs)
    · simp [h]
    · simp [h, ih]

lemma matchAt_isSome (number s : Str) :
    (matchAt number s).isSome = startThenEndAt number s := by
  unfold matchAt startThenEndAt
  cases h1 : matchLitCI eqMark s with
  | none => rfl
  | some r1 =>
    rw [findSome?_isSome_any]
    congr 1
    funext r2
    cases h2 : matchLitCI startMark r2 with
    | none => rfl
    | some r3 =>
      rw [findSome?_isSome_any]
      congr 1
      funext r4
      cases h3 : matchLitCI number r4 with
      | none => rfl
      | some r5 =>
        rw [findSome?_isSome_any]
        congr 1
        funext r6
        cases h4 : matchLitCI eqMark r6 with
        | none => rfl
        | some r7 => exact captureUpToEnd_isSome r7

lemma searchPattern_isSome (number s : Str) :
    (searchPattern number s).isSome = hasStartBannerThenEnd number s := by
  induction s with
  | nil => rfl
  | cons c cs ih =>
    simp only [searchPattern, hasStartBannerThenEnd]
    cases h : matchAt number (c :: cs) with
    | some g =>
      have hs := matchAt_isSome number (c :: cs)
      rw [h] at hs
      simp [← hs]
    | none =>
      have hs := matchAt_isSome number (c :: cs)
      rw [h] at hs
      simp [← hs, ih]

/-- Claim C6 as frozen is false on the code: the extraction pattern does not
constrain the fragment number of the end banner.  Here extraction for
fragment `2` succeeds although the end banner names `999` (first conjunct)
and even when the end marker carries no number and no closing `===` at all
(second conjunct). -/
theorem claim_C6_counterexample :
    extract_fragment_analysis
        "=== АНАЛИЗ ФРАГМЕНТА: 2 ===X=== КОНЕЦ АНАЛИЗА ФРАГМЕНТА: 999 ===".toList
        "2".toList = some "X".toList ∧
    extract_fragment_analysis
        "=== АНАЛИЗ ФРАГМЕНТА: 2 ===Y=== КОНЕЦ АНАЛИЗА ФРАГМЕНТА".toList
        "2".toList = some "Y".toList := by
  decide

/-- Claim C6, amended: `_extract_fragment_analysis` returns a non-`None`
extraction exactly when the response contains the start banner
`===\s*АНАЛИЗ ФРАГМЕНТА:\s*n\s*===` carrying an exact, case-insensitive
match of `n`, followed anywhere later by the end-marker text
`===\s*КОНЕЦ АНАЛИЗА ФРАГМЕНТА` — whose own number, if present, is not
checked; any deviation of the start banner or a missing end marker makes
extraction return `None` (the degraded full-text fallback). -/
theorem claim_C6_banner_protocol (full_response fragment_number : Str) :
    (extract_fragment_analysis full_response fragment_number).isSome
      = hasStartBannerThenEnd fragment_number full_response := by
  unfold extract_fragment_analysis
  rw [← searchPattern_isSome]
  cases searchPattern fragment_number full_response <;> rfl

end LegalTechKZ

namespace LegalTechKZ

/-! ### Parser round-trip infrastructure -/

lemma not_mem_of_contains_false {l : Str} {a : Char} (h : l.contains a = false) :
    a ∉ l := by
  intro hm
  rw [List.contains_eq_any_beq] at h
  simp [List.any_eq_true] at h
  exact h a hm rfl

lemma isWs_false_of_isDigit {c : Char} (h : isDigit c = true) : isWs c = false := by
  by_contra hne
  have hw : isWs c = true := by
    cases hb : isWs c
    · exact absurd hb hne
    · rfl
  simp only [isWs, Bool.or_eq_true, decide_eq_true_eq] at hw
  rcases hw with ((((h1 | h1) | h1) | h1) | h1) | h1 <;> subst h1 <;> simp [isDigit] at h

lemma newline_ne_of_isDigit {c : Char} (h : isDigit c = true) : c ≠ '\n' := by
  intro e
  subst e
  simp [isDigit] at h

lemma dropWhile_eq_self_of_headD {t : Str} (hne : t ≠ [])
    (h : isWs (t.headD 'A') = false) : t.dropWhile isWs = t := by
  cases t with
  | nil => exact absurd rfl hne
  | cons c cs =>
    simp only [List.headD] at h
    rw [List.dropWhile_cons, h]
    simp

lemma getLastD_eq_headD_reverse (l : Str) (d : Char) :
    l.getLastD d = l.reverse.headD d := by
  rw [List.getLastD_eq_getLast?, List.headD_eq_head?, List.head?_reverse]

lemma strip_eq_self_of_headD_getLastD {t : Str} (hne : t ≠ [])
    (hh : isWs (t.headD 'A') = false) (hl : isWs (t.getLastD 'A') = false) :
    stripChars t = t := by
  unfold stripChars
  rw [dropWhile_eq_self_of_headD hne hh]
  have hrne : t.reverse ≠ [] := by simpa using hne
  have hrh : isWs (t.reverse.headD 'A') = false := by
    rw [← getLastD_eq_headD_reverse]
    exact hl
  rw [dropWhile_eq_self_of_headD hrne hrh, List.reverse_reverse]

/-- Whole-line condition for titles and body lines: nonempty, newline-free,
no leading or trailing whitespace. -/
def plainLine (t : Str) : Bool :=
  !t.isEmpty && !(t.contains '\n') && !(isWs (t.headD 'A')) && !(isWs (t.getLastD 'A'))

/-- A well-formed structural number: a nonempty string of digits. -/
def goodNum (n : Str) : Bool := !n.isEmpty && n.all isDigit

/-- A well-formed article body line: plain and matching none of the
structural patterns. -/
def goodBody (b : Str) : Bool := plainLine b && !isStructuralLine b

lemma plainLine_ne_nil {t : Str} (h : plainLine t = true) : t ≠ [] := by
  simp only [plainLine, Bool.and_eq_true, Bool.not_eq_true'] at h
  intro e
  rw [e] at h
  simp at h

lemma strip_of_plainLine {t : Str} (h : plainLine t = true) : stripChars t = t := by
  have hne := plainLine_ne_nil h
  simp only [plainLine, Bool.and_eq_true, Bool.not_eq_true'] at h
  exact strip_eq_self_of_headD_getLastD hne h.1.2 h.2

lemma newline_not_mem_of_plainLine {t : Str} (h : plainLine t = true) : '\n' ∉ t := by
  simp only [plainLine, Bool.and_eq_true, Bool.not_eq_true'] at h
  exact not_mem_of_contains_false h.1.1.2

lemma newline_not_mem_of_goodNum {n : Str} (h : goodNum n = true) : '\n' ∉ n := by
  simp only [goodNum, Bool.and_eq_true, List.all_eq_true] at h
  intro hm
  exact absurd rfl (newline_ne_of_isDigit (h.2 '\n' hm))

/-! `splitLines` inverts newline-joining of newline-free lines. -/

lemma splitLines_no_newline {l : Str} (h : '\n' ∉ l) : splitLines l = [l] := by
  induction l with
  | nil => rfl
  | cons c cs ih =>
    have hc : ¬ c = '\n' := fun e => h (e ▸ List.mem_cons_self c cs)
    have hcs : '\n' ∉ cs := fun hm => h (List.mem_cons_of_mem c hm)
    simp only [splitLines, if_neg hc, ih hcs]

lemma splitLines_append_newline {l r : Str} (h : '\n' ∉ l) :
    splitLines (l ++ '\n' :: r) = l :: splitLines r := by
  induction l with
  | nil => simp [splitLines]
  | cons c cs ih =>
    have hc : ¬ c = '\n' := fun e => h (e ▸ List.mem_cons_self c cs)
    have hcs : '\n' ∉ cs := fun hm => h (List.mem_cons_of_mem c hm)
    simp only [List.cons_append, splitLines, if_neg hc]
    rw [show cs.append ('\n' :: r) = cs ++ '\n' :: r from rfl, ih hcs]

lemma splitLines_joinSep {ls : List Str} (hne : ls ≠ [])
    (h : ∀ l ∈ ls, '\n' ∉ l) :
    splitLines (joinSep "\n".toList ls) = ls := by
  induction ls with
  | nil => exact absurd rfl hne
  | cons l rest ih =>
    cases rest with
    | nil =>
      simp only [joinSep]
      exact splitLines_no_newline (h l (List.mem_cons_self l []))
    | cons l2 rest2 =>
      have hjoin : joinSep "\n".toList (l :: l2 :: rest2)
          = l ++ '\n' :: joinSep "\n".toList (l2 :: rest2) := by
        simp [joinSep]
      rw [hjoin, splitLines_append_newline (h l (List.mem_cons_self l _)),
        ih (by simp) (fun x hx => h x (List.mem_cons_of_mem l hx))]

/-! Literal matching on constructed headers. -/

lemma matchLitCI_append (l r : Str) : matchLitCI l (l ++ r) = some r := by
  induction l with
  | nil => rfl
  | cons c cs ih =>
    simp [matchLitCI, ih]

lemma takeWhile_append_stop {p : Char → Bool} {n : Str} {d : Char} (r : Str)
    (hn : ∀ c ∈ n, p c = true) (hd : p d = false) :
    (n ++ d :: r).takeWhile p = n ∧ (n ++ d :: r).dropWhile p = d :: r := by
  induction n with
  | nil => simp [List.takeWhile_cons, List.dropWhile_cons, hd]
  | cons c cs ih =>
    have hc : p c = true := hn c (List.mem_cons_self c cs)
    have hcs : ∀ x ∈ cs, p x = true := fun x hx => hn x (List.mem_cons_of_mem c hx)
    obtain ⟨h1, h2⟩ := ih hcs
    simp [List.takeWhile_cons, List.dropWhile_cons, hc, h1, h2]

lemma takeWhile_nil_of_head {p : Char → Bool} {c : Char} (cs : Str)
    (hc : p c = false) :
    (c :: cs).takeWhile p = [] ∧ (c :: cs).dropWhile p = c :: cs := by
  simp [List.takeWhile_cons, List.dropWhile_cons, hc]

end LegalTechKZ

namespace LegalTechKZ

/-- The header line of a built article block: `Статья <n>. <t>`. -/
def articleHeader (n t : Str) : Str := "Статья ".toList ++ n ++ ". ".toList ++ t

/-- The header line of a built chapter block: `Глава <n>. <t>`. -/
def chapterHeader (n t : Str) : Str := "Глава ".toList ++ n ++ ". ".toList ++ t

lemma matchLitCI_head_ne {c d : Char} (cs ds : Str) (h : caseFold c ≠ caseFold d) :
    matchLitCI (c :: cs) (d :: ds) = none := by
  simp [matchLitCI, h]

lemma getLastD_append_right {x t : Str} (ht : t ≠ []) (d : Char) :
    (x ++ t).getLastD d = t.getLastD d := by
  rw [getLastD_eq_headD_reverse, getLastD_eq_headD_reverse, List.reverse_append]
  cases htr : t.reverse with
  | nil => exact absurd (by simpa using htr) ht
  | cons a as => simp

lemma headerTail_built {n t : Str} (hn : goodNum n = true) (ht : plainLine t = true) :
    headerTail true (' ' :: (n ++ '.' :: (' ' :: t))) = some (n, some t) := by
  simp only [goodNum, Bool.and_eq_true, Bool.not_eq_true', List.all_eq_true] at hn
  obtain ⟨hne, hdig⟩ := hn
  obtain ⟨c, cs, rfl⟩ : ∃ c cs, n = c :: cs := by
    cases n with
    | nil => simp at hne
    | cons c cs => exact ⟨c, cs, rfl⟩
  have htne := plainLine_ne_nil ht
  obtain ⟨d, ds, rfl⟩ : ∃ d ds, t = d :: ds := by
    cases t with
    | nil => exact absurd rfl htne
    | cons d ds => exact ⟨d, ds, rfl⟩
  have hcd : isWs c = false := isWs_false_of_isDigit (hdig c (List.mem_cons_self _ _))
  have hdw : isWs d = false := by
    simp only [plainLine, Bool.and_eq_true, Bool.not_eq_true'] at ht
    simpa [List.headD] using ht.1.2
  have hdigs : ∀ x ∈ (c :: cs), isDigit x = true := hdig
  have hdot : isDigit '.' = false := by decide
  have htake : ((c :: cs) ++ '.' :: (' ' :: (d :: ds))).takeWhile isDigit = c :: cs :=
    (takeWhile_append_stop _ hdigs hdot).1
  have hdrop : ((c :: cs) ++ '.' :: (' ' :: (d :: ds))).dropWhile isDigit
      = '.' :: (' ' :: (d :: ds)) :=
    (takeWhile_append_stop _ hdigs hdot).2
  have hw1 : (' ' :: ((c :: cs) ++ '.' :: (' ' :: (d :: ds)))).takeWhile isWs
      = [' '] := by
    rw [List.takeWhile_cons]
    simp only [show isWs ' ' = true from rfl, if_true]
    rw [List.cons_append, (takeWhile_nil_of_head _ hcd).1]
  have hw2 : (' ' :: ((c :: cs) ++ '.' :: (' ' :: (d :: ds)))).dropWhile isWs
      = (c :: cs) ++ '.' :: (' ' :: (d :: ds)) := by
    rw [List.dropWhile_cons]
    simp only [show isWs ' ' = true from rfl, if_true]
    rw [List.cons_append, (takeWhile_nil_of_head _ hcd).2, ← List.cons_append]
  have hdotw : isWs '.' = false := by decide
  have hw3 : ('.' :: (' ' :: (d :: ds))).dropWhile isWs = '.' :: (' ' :: (d :: ds)) :=
    (takeWhile_nil_of_head _ hdotw).2
  have hw4 : (' ' :: (d :: ds)).dropWhile isWs = d :: ds := by
    rw [List.dropWhile_cons]
    simp only [show isWs ' ' = true from rfl, if_true]
    exact (takeWhile_nil_of_head _ hdw).2
  simp only [headerTail, hw1, hw2, htake, hdrop, hw3, hw4]
  simp [strip_of_plainLine ht]

lemma kwHeader_articleHeader {n t : Str} (hn : goodNum n = true)
    (ht : plainLine t = true) :
    kwHeader "Статья".toList true (articleHeader n t) = some (n, some t) := by
  have he : articleHeader n t = "Статья".toList ++ (' ' :: (n ++ '.' :: (' ' :: t))) := by
    simp [articleHeader]
  unfold kwHeader
  rw [he, matchLitCI_append]
  exact headerTail_built hn ht

lemma match_pattern_article_header {n t : Str} (hn : goodNum n = true)
    (ht : plainLine t = true) :
    match_pattern_article (articleHeader n t) = some (n, some t) := by
  unfold match_pattern_article
  rw [kwHeader_articleHeader hn ht]

lemma kwHeader_chapterHeader {n t : Str} (hn : goodNum n = true)
    (ht : plainLine t = true) :
    kwHeader "Глава".toList true (chapterHeader n t) = some (n, some t) := by
  have he : chapterHeader n t = "Глава".toList ++ (' ' :: (n ++ '.' :: (' ' :: t))) := by
    simp [chapterHeader]
  unfold kwHeader
  rw [he, matchLitCI_append]
  exact headerTail_built hn ht

lemma match_pattern_chapter_header {n t : Str} (hn : goodNum n = true)
    (ht : plainLine t = true) :
    match_pattern_chapter (chapterHeader n t) = some (n, some t) := by
  unfold match_pattern_chapter
  rw [kwHeader_chapterHeader hn ht]

lemma match_pattern_chapter_articleHeader (n t : Str) :
    match_pattern_chapter (articleHeader n t) = none := by
  have he : articleHeader n t = 'С' :: ("татья ".toList ++ n ++ ". ".toList ++ t) := by
    simp [articleHeader]
  have h1 : kwHeader "Глава".toList true (articleHeader n t) = none := by
    unfold kwHeader
    rw [he, show "Глава".toList = 'Г' :: "лава".toList from rfl,
      matchLitCI_head_ne _ _ (by decide)]
  have h2 : kwHeader "ГЛАВА".toList true (articleHeader n t) = none := by
    unfold kwHeader
    rw [he, show "ГЛАВА".toList = 'Г' :: "ЛАВА".toList from rfl,
      matchLitCI_head_ne _ _ (by decide)]
  have h3 : kwHeader "Раздел".toList true (articleHeader n t) = none := by
    unfold kwHeader
    rw [he, show "Раздел".toList = 'Р' :: "аздел".toList from rfl,
      matchLitCI_head_ne _ _ (by decide)]
  unfold match_pattern_chapter
  rw [h1, h2, h3]

lemma match_pattern_article_chapterHeader (n t : Str) :
    match_pattern_article (chapterHeader n t) = none := by
  have he : chapterHeader n t = 'Г' :: ("лава ".toList ++ n ++ ". ".toList ++ t) := by
    simp [chapterHeader]
  have h1 : kwHeader "Статья".toList true (chapterHeader n t) = none := by
    unfold kwHeader
    rw [he, show "Статья".toList = 'С' :: "татья".toList from rfl,
      matchLitCI_head_ne _ _ (by decide)]
  have h2 : kwHeader "СТАТЬЯ".toList true (chapterHeader n t) = none := by
    unfold kwHeader
    rw [he, show "СТАТЬЯ".toList = 'С' :: "ТАТЬЯ".toList from rfl,
      matchLitCI_head_ne _ _ (by decide)]
  have h3 : kwHeader "Ст.".toList false (chapterHeader n t) = none := by
    unfold kwHeader
    rw [he, show "Ст.".toList = 'С' :: "т.".toList from rfl,
      matchLitCI_head_ne _ _ (by decide)]
  unfold match_pattern_article
  rw [h1, h2, h3]

lemma match_pattern_paragraph_nondigit {s : Str} {c : Char} {cs : Str}
    (he : s = c :: cs) (hc : isDigit c = false) :
    match_pattern_paragraph s = none := by
  unfold match_pattern_paragraph paragraphPat
  rw [he]
  simp [List.takeWhile_cons, hc]

lemma strip_articleHeader (n : Str) {t : Str} (ht : plainLine t = true) :
    stripChars (articleHeader n t) = articleHeader n t := by
  have he : articleHeader n t = 'С' :: ("татья ".toList ++ n ++ ". ".toList ++ t) := by
    simp [articleHeader]
  have htne := plainLine_ne_nil ht
  refine strip_eq_self_of_headD_getLastD ?_ ?_ ?_
  · rw [he]; simp
  · rw [he]
    show isWs 'С' = false
    decide
  · have hx : articleHeader n t = ("Статья ".toList ++ n ++ ". ".toList) ++ t := by
      simp [articleHeader]
    rw [hx, getLastD_append_right htne]
    simp only [plainLine, Bool.and_eq_true, Bool.not_eq_true'] at ht
    exact ht.2

lemma strip_chapterHeader (n : Str) {t : Str} (ht : plainLine t = true) :
    stripChars (chapterHeader n t) = chapterHeader n t := by
  have he : chapterHeader n t = 'Г' :: ("лава ".toList ++ n ++ ". ".toList ++ t) := by
    simp [chapterHeader]
  have htne := plainLine_ne_nil ht
  refine strip_eq_self_of_headD_getLastD ?_ ?_ ?_
  · rw [he]; simp
  · rw [he]
    show isWs 'Г' = false
    decide
  · have hx : chapterHeader n t = ("Глава ".toList ++ n ++ ". ".toList) ++ t := by
      simp [chapterHeader]
    rw [hx, getLastD_append_right htne]
    simp only [plainLine, Bool.and_eq_true, Bool.not_eq_true'] at ht
    exact ht.2

lemma isStructural_articleHeader {n t : Str} (hn : goodNum n = true)
    (ht : plainLine t = true) :
    isStructuralLine (articleHeader n t) = true := by
  unfold isStructuralLine
  rw [match_pattern_article_header hn ht]
  simp

lemma isStructural_chapterHeader {n t : Str} (hn : goodNum n = true)
    (ht : plainLine t = true) :
    isStructuralLine (chapterHeader n t) = true := by
  unfold isStructuralLine
  rw [match_pattern_chapter_header hn ht]
  simp

end LegalTechKZ

namespace LegalTechKZ

lemma isEmpty_false_of_ne_nil {l : Str} (h : l ≠ []) : l.isEmpty = false := by
  cases l with
  | nil => exact absurd rfl h
  | cons c cs => rfl

lemma structural_false_parts {s : Str} (h : isStructuralLine s = false) :
    match_pattern_article s = none ∧ match_pattern_paragraph s = none ∧
    match_pattern_chapter s = none := by
  unfold isStructuralLine at h
  refine ⟨?_, ?_, ?_⟩
  · cases ha : match_pattern_article s with
    | none => rfl
    | some m => rw [ha] at h; simp at h
  · cases ha : match_pattern_paragraph s with
    | none => rfl
    | some m => rw [ha] at h; simp at h
  · cases ha : match_pattern_chapter s with
    | none => rfl
    | some m => rw [ha] at h; simp at h

lemma collectRest_stop {r0 : Str} (rs : List Str)
    (h : ((stripChars r0).isEmpty || isStructuralLine (stripChars r0)) = true) :
    collectRest (r0 :: rs) = [] := by
  simp only [collectRest]
  by_cases h2 : (stripChars r0).isEmpty
  · rw [if_pos h2]
  · have h2' : (stripChars r0).isEmpty = false := by
      cases hb : (stripChars r0).isEmpty
      · rfl
      · exact absurd hb h2
    rw [h2', Bool.false_or] at h
    rw [if_neg h2, if_pos h]

lemma collectRest_body (body rest : List Str) (hb : body.all goodBody = true)
    (hr : rest = [] ∨ ∃ r0 rs, rest = r0 :: rs ∧
      ((stripChars r0).isEmpty || isStructuralLine (stripChars r0)) = true) :
    collectRest (body ++ rest) = body := by
  induction body with
  | nil =>
    simp only [List.nil_append]
    rcases hr with rfl | ⟨r0, rs, rfl, h⟩
    · rfl
    · exact collectRest_stop rs h
  | cons b bs ih =>
    simp only [List.all_cons, Bool.and_eq_true] at hb
    have hgb := hb.1
    simp only [goodBody, Bool.and_eq_true, Bool.not_eq_true'] at hgb
    obtain ⟨hpl, hstru⟩ := hgb
    have hsb : stripChars b = b := strip_of_plainLine hpl
    have hbe : b.isEmpty = false := isEmpty_false_of_ne_nil (plainLine_ne_nil hpl)
    simp only [List.cons_append, collectRest, hsb, hbe, hstru, Bool.false_eq_true,
      if_false]
    rw [show bs.append rest = bs ++ rest from rfl, ih hb.2]

lemma parseLines_skip_body {b : Str} (hb : goodBody b = true)
    (rest : List Str) (ch art : Option Str) (pos : Nat) :
    parseLines (b :: rest) ch art pos = parseLines rest ch art (pos + b.length + 1) := by
  simp only [goodBody, Bool.and_eq_true, Bool.not_eq_true'] at hb
  obtain ⟨hpl, hstru⟩ := hb
  have hsb : stripChars b = b := strip_of_plainLine hpl
  have hbe : b.isEmpty = false := isEmpty_false_of_ne_nil (plainLine_ne_nil hpl)
  obtain ⟨hart, hpar, hchap⟩ := structural_false_parts hstru
  simp only [parseLines, hsb, hbe, Bool.false_eq_true, if_false, hchap, hart, hpar]

lemma parseLines_body_skip : ∀ (body : List Str), body.all goodBody = true →
    ∀ (rest : List Str) (ch art : Option Str) (pos : Nat),
      ∃ pos', parseLines (body ++ rest) ch art pos = parseLines rest ch art pos' := by
  intro body
  induction body with
  | nil => exact fun _ rest ch art pos => ⟨pos, rfl⟩
  | cons b bs ih =>
    intro hb rest ch art pos
    simp only [List.all_cons, Bool.and_eq_true] at hb
    obtain ⟨pos', hp⟩ := ih hb.2 rest ch art (pos + b.length + 1)
    refine ⟨pos', ?_⟩
    rw [List.cons_append, parseLines_skip_body hb.1]
    exact hp

lemma parseLines_chapter_block {n t : Str} (hn : goodNum n = true)
    (ht : plainLine t = true) (rest : List Str) (ch art : Option Str) (pos : Nat) :
    parseLines (chapterHeader n t :: rest) ch art pos
      = { type := "chapter".toList, number := n, title := some t,
          text := chapterHeader n t,
          full_path := "Глава ".toList ++ n, parent_number := none,
          char_start := pos, char_end := pos + (chapterHeader n t).length }
        :: parseLines rest (some n) art (pos + (chapterHeader n t).length + 1) := by
  have hs := strip_chapterHeader n ht
  have hne : chapterHeader n t ≠ [] := by
    have he : chapterHeader n t = 'Г' :: ("лава ".toList ++ n ++ ". ".toList ++ t) := by
      simp [chapterHeader]
    rw [he]
    simp
  have hbe : (chapterHeader n t).isEmpty = false := isEmpty_false_of_ne_nil hne
  simp only [parseLines, hs, hbe, Bool.false_eq_true, if_false,
    match_pattern_chapter_header hn ht]

lemma parseLines_article_block {n t : Str} (hn : goodNum n = true)
    (ht : plainLine t = true) (body rest : List Str) (hb : body.all goodBody = true)
    (hr : rest = [] ∨ ∃ r0 rs, rest = r0 :: rs ∧
      ((stripChars r0).isEmpty || isStructuralLine (stripChars r0)) = true)
    (ch art : Option Str) (pos : Nat) :
    parseLines (articleHeader n t :: (body ++ rest)) ch art pos
      = { type := "article".toList, number := n, title := some t,
          text := joinSep " ".toList (articleHeader n t :: body),
          full_path :=
            match ch with
            | some c => "Глава ".toList ++ c ++ " -> Статья ".toList ++ n
            | none => "Статья ".toList ++ n,
          parent_number := ch,
          char_start := pos,
          char_end := pos + (joinSep " ".toList (articleHeader n t :: body)).length }
        :: parseLines (body ++ rest) ch (some n) (pos + (articleHeader n t).length + 1) := by
  have hs := strip_articleHeader n ht
  have hne : articleHeader n t ≠ [] := by
    have he : articleHeader n t = 'С' :: ("татья ".toList ++ n ++ ". ".toList ++ t) := by
      simp [articleHeader]
    rw [he]
    simp
  have hbe : (articleHeader n t).isEmpty = false := isEmpty_false_of_ne_nil hne
  have hcoll : collect_article_text (articleHeader n t) (body ++ rest)
      = joinSep " ".toList (articleHeader n t :: body) := by
    unfold collect_article_text
    rw [hs, collectRest_body body rest hb hr]
  simp only [parseLines, hs, hbe, Bool.false_eq_true, if_false,
    match_pattern_chapter_articleHeader, match_pattern_article_header hn ht, hcoll]

end LegalTechKZ

namespace LegalTechKZ

/-! ### Built documents: well-formed chapter/article blocks -/

/-- A building block of a synthetic document: a chapter or article header
line (number and title) followed by its body lines. -/
inductive Block where
  | chapterB : Str → Str → List Str → Block
  | articleB : Str → Str → List Str → Block

/-- The lines a block contributes to the document. -/
def blockLines : Block → List Str
  | Block.chapterB n t body => chapterHeader n t :: body
  | Block.articleB n t body => articleHeader n t :: body

/-- A well-formed block: digit number, plain nonempty title, body lines
that are plain and match no structural pattern. -/
def wfBlock : Block → Bool
  | Block.chapterB n t body => goodNum n && plainLine t && body.all goodBody
  | Block.articleB n t body => goodNum n && plainLine t && body.all goodBody

/-- The article number/body pair a block should contribute to the parse:
the article's recovered text is its lines joined with single spaces (the
parser concatenates the header line and the body lines with `' '.join`). -/
def blockEntry : Block → Option (Str × Str)
  | Block.chapterB _ _ _ => none
  | Block.articleB n t body => some (n, joinSep " ".toList (articleHeader n t :: body))

/-- Concatenate the blocks' lines into one document text. -/
def buildDocument (blocks : List Block) : Str :=
  joinSep "\n".toList ((blocks.map blockLines).flatten)

/-- The ordered article (number, text) pairs of a fragment list. -/
def articleEntries (frags : List DocumentFragment) : List (Str × Str) :=
  (frags.filter fun f => f.type == "article".toList).map fun f => (f.number, f.text)

lemma articleEntries_cons_of_ne {f : DocumentFragment} {L : List DocumentFragment}
    (hf : (f.type == "article".toList) = false) :
    articleEntries (f :: L) = articleEntries L := by
  simp only [articleEntries, List.filter_cons, hf, Bool.false_eq_true, if_false]

lemma articleEntries_cons_of_eq {f : DocumentFragment} {L : List DocumentFragment}
    (hf : (f.type == "article".toList) = true) :
    articleEntries (f :: L) = (f.number, f.text) :: articleEntries L := by
  simp only [articleEntries, List.filter_cons, hf, if_true, List.map_cons]

lemma flattenRest_head (blocks : List Block) (h : blocks.all wfBlock = true) :
    (blocks.map blockLines).flatten = [] ∨
    ∃ r0 rs, (blocks.map blockLines).flatten = r0 :: rs ∧
      ((stripChars r0).isEmpty || isStructuralLine (stripChars r0)) = true := by
  cases blocks with
  | nil => exact Or.inl rfl
  | cons bl rest =>
    right
    simp only [List.all_cons, Bool.and_eq_true] at h
    cases bl with
    | chapterB n t body =>
      simp only [wfBlock, Bool.and_eq_true] at h
      obtain ⟨⟨hn, ht⟩, _⟩ := h.1
      refine ⟨chapterHeader n t, body ++ (rest.map blockLines).flatten,
        by simp [blockLines], ?_⟩
      rw [strip_chapterHeader n ht, isStructural_chapterHeader hn ht]
      simp
    | articleB n t body =>
      simp only [wfBlock, Bool.and_eq_true] at h
      obtain ⟨⟨hn, ht⟩, _⟩ := h.1
      refine ⟨articleHeader n t, body ++ (rest.map blockLines).flatten,
        by simp [blockLines], ?_⟩
      rw [strip_articleHeader n ht, isStructural_articleHeader hn ht]
      simp

lemma newline_not_mem_articleHeader {n t : Str} (hn : goodNum n = true)
    (ht : plainLine t = true) : '\n' ∉ articleHeader n t := by
  intro hm
  simp only [articleHeader, List.mem_append] at hm
  rcases hm with ((hm | hm) | hm) | hm
  · simp at hm
  · exact newline_not_mem_of_goodNum hn hm
  · simp at hm
  · exact newline_not_mem_of_plainLine ht hm

lemma newline_not_mem_chapterHeader {n t : Str} (hn : goodNum n = true)
    (ht : plainLine t = true) : '\n' ∉ chapterHeader n t := by
  intro hm
  simp only [chapterHeader, List.mem_append] at hm
  rcases hm with ((hm | hm) | hm) | hm
  · simp at hm
  · exact newline_not_mem_of_goodNum hn hm
  · simp at hm
  · exact newline_not_mem_of_plainLine ht hm

lemma lines_newline_free (blocks : List Block) (h : blocks.all wfBlock = true) :
    ∀ l ∈ (blocks.map blockLines).flatten, '\n' ∉ l := by
  intro l hl
  rw [List.mem_flatten] at hl
  obtain ⟨ls, hls, hlin⟩ := hl
  rw [List.mem_map] at hls
  obtain ⟨bl, hbl, rfl⟩ := hls
  rw [List.all_eq_true] at h
  have hwf := h bl hbl
  cases bl with
  | chapterB n t body =>
    simp only [wfBlock, Bool.and_eq_true] at hwf
    obtain ⟨⟨hn, ht⟩, hb⟩ := hwf
    simp only [blockLines, List.mem_cons] at hlin
    rcases hlin with rfl | hlin
    · exact newline_not_mem_chapterHeader hn ht
    · rw [List.all_eq_true] at hb
      have := hb l hlin
      simp only [goodBody, Bool.and_eq_true] at this
      exact newline_not_mem_of_plainLine this.1
  | articleB n t body =>
    simp only [wfBlock, Bool.and_eq_true] at hwf
    obtain ⟨⟨hn, ht⟩, hb⟩ := hwf
    simp only [blockLines, List.mem_cons] at hlin
    rcases hlin with rfl | hlin
    · exact newline_not_mem_articleHeader hn ht
    · rw [List.all_eq_true] at hb
      have := hb l hlin
      simp only [goodBody, Bool.and_eq_true] at this
      exact newline_not_mem_of_plainLine this.1

lemma parseLines_blocks : ∀ (blocks : List Block), blocks.all wfBlock = true →
    ∀ (ch art : Option Str) (pos : Nat),
      articleEntries (parseLines ((blocks.map blockLines).flatten) ch art pos)
        = blocks.filterMap blockEntry := by
  intro blocks
  induction blocks with
  | nil => intro _ ch art pos; rfl
  | cons bl rest ih =>
    intro h ch art pos
    simp only [List.all_cons, Bool.and_eq_true] at h
    have hrest := flattenRest_head rest h.2
    cases bl with
    | chapterB n t body =>
      have hwf := h.1
      simp only [wfBlock, Bool.and_eq_true] at hwf
      obtain ⟨⟨hn, ht⟩, hb⟩ := hwf
      have hflat : ((Block.chapterB n t body :: rest).map blockLines).flatten
          = chapterHeader n t :: (body ++ (rest.map blockLines).flatten) := by
        simp [blockLines]
      rw [hflat, parseLines_chapter_block hn ht,
        articleEntries_cons_of_ne (by rfl)]
      obtain ⟨pos', hskip⟩ := parseLines_body_skip body hb
        ((rest.map blockLines).flatten) (some n) art
        (pos + (chapterHeader n t).length + 1)
      rw [hskip, ih h.2 (some n) art pos']
      simp [List.filterMap_cons, blockEntry]
    | articleB n t body =>
      have hwf := h.1
      simp only [wfBlock, Bool.and_eq_true] at hwf
      obtain ⟨⟨hn, ht⟩, hb⟩ := hwf
      have hflat : ((Block.articleB n t body :: rest).map blockLines).flatten
          = articleHeader n t :: (body ++ (rest.map blockLines).flatten) := by
        simp [blockLines]
      rw [hflat, parseLines_article_block hn ht body _ hb hrest,
        articleEntries_cons_of_eq (by rfl)]
      obtain ⟨pos', hskip⟩ := parseLines_body_skip body hb
        ((rest.map blockLines).flatten) ch (some n)
        (pos + (articleHeader n t).length + 1)
      rw [hskip, ih h.2 ch (some n) pos']
      simp [List.filterMap_cons, blockEntry]

/-- Claim C7: for any document built by concatenating well-formed chapter
and article blocks, `parse` recovers exactly the ordered article numbers
and article texts of the blocks (an article's text is its header line and
body lines joined with single spaces, which is how the parser assembles a
multi-line article body). -/
theorem claim_C7_parser_roundtrip (blocks : List Block)
    (h : blocks.all wfBlock = true) :
    articleEntries (parse (buildDocument blocks)) = blocks.filterMap blockEntry := by
  cases blocks with
  | nil => rfl
  | cons b bs =>
    unfold parse buildDocument
    have hne : (((b :: bs).map blockLines).flatten) ≠ [] := by
      cases b <;> simp [blockLines]
    rw [splitLines_joinSep hne (lines_newline_free _ h)]
    exact parseLines_blocks _ h none none 0

/-- Concrete instance of claim C7: one chapter block and two article
blocks, one with a two-line body; the parse result is also evaluated
explicitly. -/
theorem claim_C7_witness :
    ([Block.chapterB "1".toList "Общие положения".toList [],
      Block.articleB "1".toList "Термины".toList
        ["определения терминов".toList, "и сокращений".toList],
      Block.articleB "2".toList "Цели".toList []].all wfBlock = true) ∧
    articleEntries (parse (buildDocument
        [Block.chapterB "1".toList "Общие положения".toList [],
         Block.articleB "1".toList "Термины".toList
           ["определения терминов".toList, "и сокращений".toList],
         Block.articleB "2".toList "Цели".toList []]))
      = [Block.chapterB "1".toList "Общие положения".toList [],
         Block.articleB "1".toList "Термины".toList
           ["определения терминов".toList, "и сокращений".toList],
         Block.articleB "2".toList "Цели".toList []].filterMap blockEntry ∧
    [Block.chapterB "1".toList "Общие положения".toList [],
     Block.articleB "1".toList "Термины".toList
       ["определения терминов".toList, "и сокращений".toList],
     Block.articleB "2".toList "Цели".toList []].filterMap blockEntry
      = [("1".toList, "Статья 1. Термины определения терминов и сокращений".toList),
         ("2".toList, "Статья 2. Цели".toList)] :=
  ⟨by decide,
    claim_C7_parser_roundtrip
      [Block.chapterB "1".toList "Общие положения".toList [],
       Block.articleB "1".toList "Термины".toList
         ["определения терминов".toList, "и сокращений".toList],
       Block.articleB "2".toList "Цели".toList []] (by decide),
    by decide⟩

end LegalTechKZ

namespace LegalTechKZ

/-- Claim C8 as frozen is false on the code: `_collect_article_text` stops
at the first blank line, not only at structural markers.  In the document
`"Статья 1. Право\n\nтекст"` the line `текст` is non-blank and matches no
structural pattern, yet the parsed article's text is just the header —
`текст` is not included because a blank line intervenes. -/
theorem claim_C8_counterexample :
    (parse "Статья 1. Право\n\nтекст".toList).map (fun f => (f.number, f.text))
      = [("1".toList, "Статья 1. Право".toList)] ∧
    stripChars "текст".toList = "текст".toList ∧
    "текст".toList ≠ [] ∧
    isStructuralLine "текст".toList = false := by
  decide

/-- Claim C8, amended: after an article header line, the parser consumes
subsequent lines into the article's text until the first blank line or
structural line (chapter, article or paragraph pattern), whichever comes
first; every line of the contiguous non-blank, non-structural run is
included (joined with single spaces after stripping), and everything from
the stopping line onward — including body lines separated from the header
by a blank line — is excluded. -/
theorem claim_C8_collection_boundary (line : Str) (body rest : List Str)
    (hb : body.all goodBody = true)
    (hr : rest = [] ∨ ∃ r0 rs, rest = r0 :: rs ∧
      ((stripChars r0).isEmpty || isStructuralLine (stripChars r0)) = true) :
    collect_article_text line (body ++ rest)
      = joinSep " ".toList (stripChars line :: body) := by
  unfold collect_article_text
  rw [collectRest_body body rest hb hr]

/-- Concrete instance of the amended claim C8: two body lines are
collected, collection stops at the blank line, and the trailing line after
the blank is excluded. -/
theorem claim_C8_witness :
    (["тело один".toList, "тело два".toList].all goodBody = true) ∧
    collect_article_text "Статья 1. Заголовок".toList
        (["тело один".toList, "тело два".toList] ++ ["".toList, "после".toList])
      = joinSep " ".toList
          (stripChars "Статья 1. Заголовок".toList
            :: ["тело один".toList, "тело два".toList]) ∧
    collect_article_text "Статья 1. Заголовок".toList
        (["тело один".toList, "тело два".toList] ++ ["".toList, "после".toList])
      = "Статья 1. Заголовок тело один тело два".toList :=
  ⟨by decide,
    claim_C8_collection_boundary "Статья 1. Заголовок".toList
      ["тело один".toList, "тело два".toList] ["".toList, "после".toList]
      (by decide) (Or.inr ⟨"".toList, ["после".toList], rfl, by decide⟩),
    by decide⟩

end LegalTechKZ
